import Mathlib

set_option maxRecDepth 16000

/-!
Verification of the recipe-recommendation engine of the Group-Project-CS
repository (files src/unnamed/part_000, alias "Nutrition Advisory.py", and
src/nutrition_advisory.py, plus the UserPreferenceModel copy in
src/calories_nutrition.py).

Python strings are modelled as `List Char` (ASCII fragment; the corpus and
all claim-relevant inputs are ASCII).  Python `fractions.Fraction` values and
the floats derived from them are modelled as `ℚ`: the code builds exact
rationals with `Fraction` and only converts to float at the very end, so the
rational semantics is the intended idealisation (float rounding is outside
the scope of the claims, which are about the exact-rational pipeline).

Namespace `AdvisoryApp` embeds src/unnamed/part_000, namespace `AdvisoryPage`
embeds src/nutrition_advisory.py, namespace `CaloriesNutrition` embeds the
relevant part of src/calories_nutrition.py.
-/

/-- Python whitespace (`str.strip`, `str.split`, the `\s` class), ASCII part. -/
def isPySpace (c : Char) : Bool :=
  c = ' ' || c = '\t' || c = '\n' || c = '\r' || c = '\x0b' || c = '\x0c'

/-- `str.lstrip()`. -/
def pystripLeft (l : List Char) : List Char := l.dropWhile isPySpace

/-- `str.rstrip()`. -/
def pystripRight (l : List Char) : List Char :=
  (l.reverse.dropWhile isPySpace).reverse

/-- `str.strip()`. -/
def pystrip (l : List Char) : List Char := pystripLeft (pystripRight l)

/-- `str.lower()` (ASCII). -/
def pylower (l : List Char) : List Char := l.map Char.toLower

/-- `str.split()` with no separator: split on runs of whitespace, dropping
empty pieces. -/
def pysplit : List Char → List (List Char)
  | [] => []
  | c :: rest =>
    if isPySpace c then pysplit rest
    else
      match pysplit rest with
      | [] => [[c]]
      | tok :: toks =>
        match rest with
        | [] => [[c]]
        | d :: _ => if isPySpace d then [c] :: tok :: toks else (c :: tok) :: toks

/-- `str.split(sep)` for a one-character separator: always returns at least
one piece, `"ab-cd".split("-") = ["ab", "cd"]`. -/
def splitOnChar (sep : Char) : List Char → List (List Char)
  | [] => [[]]
  | c :: rest =>
    match splitOnChar sep rest with
    | [] => [[]]
    | h :: t => if c = sep then [] :: h :: t else (c :: h) :: t

/-- `" ".join(tokens)`. -/
def joinSpace : List (List Char) → List Char
  | [] => []
  | [t] => t
  | t :: rest => t ++ ' ' :: joinSpace rest

/-- Association-list lookup (dict lookup on list-of-pairs model). -/
def alookup : List (List Char × List Char) → List Char → Option (List Char)
  | [], _ => none
  | (k, v) :: rest, t => if t = k then some v else alookup rest t

/-- Numeric value of an ASCII digit. -/
def digitVal (c : Char) : ℕ := c.toNat - ('0').toNat

/-- Value of a digit string read in base 10 (`int` on a digit string). -/
def natOfDigits (l : List Char) : ℕ := l.foldl (fun a c => 10 * a + digitVal c) 0

/-- Exponent / end-of-token tail of the `fractions.Fraction` string grammar:
either the end of the token, or `E[sign]digits` (case-insensitive), scaling
the already-parsed value by the power of ten. -/
def parseExpTail (base : ℚ) (r : List Char) : Option ℚ :=
  match r with
  | [] => some base
  | c :: r2 =>
    if c = 'e' ∨ c = 'E' then
      let sr : ℤ × List Char :=
        match r2 with
        | '+' :: rr => (1, rr)
        | '-' :: rr => (-1, rr)
        | _ => (1, r2)
      let ed := sr.2.takeWhile Char.isDigit
      let r4 := sr.2.dropWhile Char.isDigit
      if ed = [] ∨ r4 ≠ [] then none
      else some (base * (10 : ℚ) ^ (sr.1 * (natOfDigits ed : ℤ)))
    else none

/-- Body of the `Fraction` string grammar after the optional sign:
`digits [\s* / \s* digits]` or `digits[.digits][E[sign]digits]` or
`.digits[E[sign]digits]`; at least one digit is required (the regex
lookahead `(?=\d|\.\d)`). -/
def parseUnsigned (sgn : ℚ) (t1 : List Char) : Option ℚ :=
  let num := t1.takeWhile Char.isDigit
  let r1 := t1.dropWhile Char.isDigit
  if (r1.dropWhile isPySpace).head? = some '/' then
    if num = [] then none
    else
      let r3 := ((r1.dropWhile isPySpace).tail).dropWhile isPySpace
      let den := r3.takeWhile Char.isDigit
      let r4 := r3.dropWhile Char.isDigit
      if den = [] ∨ r4 ≠ [] then none
      else if natOfDigits den = 0 then none
      else some (sgn * (natOfDigits num : ℚ) / (natOfDigits den : ℚ))
  else if r1 = [] then
    if num = [] then none else some (sgn * (natOfDigits num : ℚ))
  else if r1.head? = some '.' then
    let dec := r1.tail.takeWhile Char.isDigit
    let r3 := r1.tail.dropWhile Char.isDigit
    if num = [] ∧ dec = [] then none
    else
      parseExpTail
        (sgn * ((natOfDigits num : ℚ) + (natOfDigits dec : ℚ) / (10 : ℚ) ^ dec.length)) r3
  else if num = [] then none else parseExpTail (sgn * (natOfDigits num : ℚ)) r1

/-- `Fraction(token)` on a string argument, as an exact rational; `none`
models the `ValueError` / `ZeroDivisionError` that the callers catch.
Follows `fractions._RATIONAL_FORMAT`: optional surrounding whitespace,
optional sign, then `parseUnsigned` (ASCII digits; the CPython regex also
admits Unicode digits and underscore digit groups, which never occur in
this corpus). -/
def pyFraction (s : List Char) : Option ℚ :=
  match pystrip s with
  | [] => parseUnsigned 1 []
  | c :: r =>
    if c = '+' then parseUnsigned 1 r
    else if c = '-' then parseUnsigned (-1) r
    else parseUnsigned 1 (c :: r)

/-- The UNICODE_FRACTIONS table, identical in both advisory modules. -/
def UNICODE_FRACTIONS : List (List Char × List Char) :=
  [("¼".data, ("1/4".data)), ("½".data, ("1/2".data)), ("¾".data, ("3/4".data)),
   ("⅐".data, ("1/7".data)), ("⅑".data, ("1/9".data)), ("⅒".data, ("1/10".data)),
   ("⅓".data, ("1/3".data)), ("⅔".data, ("2/3".data)),
   ("⅕".data, ("1/5".data)), ("⅖".data, ("2/5".data)), ("⅗".data, ("3/5".data)),
   ("⅘".data, ("4/5".data)),
   ("⅙".data, ("1/6".data)), ("⅚".data, ("5/6".data)),
   ("⅛".data, ("1/8".data)), ("⅜".data, ("3/8".data)), ("⅝".data, ("5/8".data)),
   ("⅞".data, ("7/8".data))]

/-- `if token in UNICODE_FRACTIONS: token = UNICODE_FRACTIONS[token]`. -/
def unicodeSub (t : List Char) : List Char := (alookup UNICODE_FRACTIONS t).getD t

/-- The hyphen-range branch of the unnamed module's `parse_quantity_token`
(lines 81-86 of src/unnamed/part_000): on a token that contains a hyphen and
does not start with one, split once on the hyphen and return the mean of the
two halves if both parse as `Fraction`s; any failure falls through. -/
def rangeMean (t : List Char) : Option ℚ :=
  if ('-') ∈ t ∧ t.head? ≠ some '-' then
    match splitOnChar '-' t with
    | [a, b] =>
      match pyFraction a, pyFraction b with
      | some x, some y => some ((x + y) / 2)
      | _, _ => none
    | _ => none
  else none

namespace AdvisoryApp

/-- `parse_quantity_token` of src/unnamed/part_000 (lines 76-91): strip,
substitute Unicode vulgar fractions, try the hyphen-range interpretation,
else parse the whole token as a `Fraction`; `none` on failure. -/
def parse_quantity_token (token : List Char) : Option ℚ :=
  let t := unicodeSub (pystrip token)
  match rangeMean t with
  | some q => some q
  | none => pyFraction t

end AdvisoryApp

namespace AdvisoryPage

/-- `parse_quantity_token` of src/nutrition_advisory.py (lines 83-90): same
as the unnamed module's but WITHOUT the hyphen-range branch. -/
def parse_quantity_token (token : List Char) : Option ℚ :=
  pyFraction (unicodeSub (pystrip token))

end AdvisoryPage

/-- One ASCII digit character. -/
def digitChar (n : ℕ) : Char := Char.ofNat (48 + n)

/-- `str(n)` for a natural number. -/
def natRepr (n : ℕ) : List Char :=
  if h : n < 10 then [digitChar n]
  else natRepr (n / 10) ++ [digitChar (n % 10)]
termination_by n
decreasing_by
  exact Nat.div_lt_self (Nat.lt_of_lt_of_le (by norm_num) (Nat.le_of_not_lt h)) (by norm_num)

/-- `str(i)` for an integer. -/
def intRepr (i : ℤ) : List Char :=
  if i < 0 then '-' :: natRepr i.natAbs else natRepr i.natAbs

/-- The continued-fraction loop of `Fraction.limit_denominator` (CPython
`fractions.py`): state `(p0, q0, p1, q1)` with remaining Euclid pair `n, d`;
stops when the next convergent denominator `q2` would exceed `M`.  Division
is Python floor division (`Int.ediv`/`Int.emod` agree with it for positive
divisors).  The `d = 0` branch is unreachable when the caller guarantees
`M < x.den` (proved below), matching CPython where the loop always breaks
before the remainder hits zero. -/
def limitDenLoop (M : ℤ) (p0 q0 p1 q1 n : ℤ) (d : ℕ) : ℤ × ℤ × ℤ × ℤ :=
  if hd : d = 0 then (p0, q0, p1, q1)
  else
    let a := n / (d : ℤ)
    let q2 := q0 + a * q1
    if M < q2 then (p0, q0, p1, q1)
    else limitDenLoop M p1 q1 (p0 + a * p1) q2 d (n % (d : ℤ)).toNat
termination_by d
decreasing_by
  have hpos : (0 : ℤ) < (d : ℤ) := by exact_mod_cast Nat.pos_of_ne_zero hd
  have h1 : n % (d : ℤ) < (d : ℤ) := Int.emod_lt_of_pos n hpos
  have h2 : 0 ≤ n % (d : ℤ) := Int.emod_nonneg n (by omega : (d : ℤ) ≠ 0)
  omega

/-- `Fraction.limit_denominator(max_denominator)`: the closest fraction with
denominator at most `maxd` (CPython algorithm: run the loop, then compare the
two candidate bounds and return the closer one, preferring `p1/q1` on a
tie). -/
def limit_denominator (x : ℚ) (maxd : ℕ) : ℚ :=
  if x.den ≤ maxd then x
  else
    match limitDenLoop maxd 0 1 1 0 x.num x.den with
    | (p0, q0, p1, q1) =>
      let k := ((maxd : ℤ) - q0) / q1
      let b1 : ℚ := ((p0 + k * p1 : ℤ) : ℚ) / ((q0 + k * q1 : ℤ) : ℚ)
      let b2 : ℚ := (p1 : ℚ) / (q1 : ℚ)
      if |b2 - x| ≤ |b1 - x| then b2 else b1

/-- `float_to_fraction_str` (identical in both advisory modules, default
`max_denominator=16` always used): `Fraction(x).limit_denominator(16)`
rendered as `"n"` when the denominator is 1 and as `"n/d"` otherwise. -/
def float_to_fraction_str (x : ℚ) : List Char :=
  let f := limit_denominator x 16
  if f.den = 1 then intRepr f.num
  else intRepr f.num ++ '/' :: natRepr f.den

namespace AdvisoryApp

/-- `split_quantity_from_line` of src/unnamed/part_000 (lines 94-115):
tokenize on whitespace, greedily consume leading tokens that parse as
quantities, sum them; a line with no leading quantity comes back unchanged
with no value. -/
def split_quantity_from_line (line : List Char) : Option ℚ × List Char :=
  if line = [] then (none, line)
  else
    let tokens := pysplit line
    let qty_tokens := tokens.takeWhile (fun t => (parse_quantity_token t).isSome)
    let rest_tokens := tokens.dropWhile (fun t => (parse_quantity_token t).isSome)
    if qty_tokens = [] then (none, line)
    else
      (some (qty_tokens.map (fun t => (parse_quantity_token t).getD 0)).sum,
       pystrip (joinSpace rest_tokens))

/-- `scale_ingredient_lines` of src/unnamed/part_000 (lines 118-128). -/
def scale_ingredient_lines (lines : List (List Char)) (factor : ℚ) : List (List Char) :=
  lines.map fun line =>
    match split_quantity_from_line line with
    | (none, _) => line
    | (some qty, rest) => pystrip (float_to_fraction_str (qty * factor) ++ ' ' :: rest)

end AdvisoryApp

namespace AdvisoryPage

/-- `split_quantity_from_line` of src/nutrition_advisory.py (lines 92-110);
textually the same loop as the unnamed module's but calling this module's
`parse_quantity_token` (no hyphen-range branch). -/
def split_quantity_from_line (line : List Char) : Option ℚ × List Char :=
  if line = [] then (none, line)
  else
    let tokens := pysplit line
    let qty_tokens := tokens.takeWhile (fun t => (parse_quantity_token t).isSome)
    let rest_tokens := tokens.dropWhile (fun t => (parse_quantity_token t).isSome)
    if qty_tokens = [] then (none, line)
    else
      (some (qty_tokens.map (fun t => (parse_quantity_token t).getD 0)).sum,
       pystrip (joinSpace rest_tokens))

/-- `scale_ingredient_lines` of src/nutrition_advisory.py (lines 112-121). -/
def scale_ingredient_lines (lines : List (List Char)) (factor : ℚ) : List (List Char) :=
  lines.map fun line =>
    match split_quantity_from_line line with
    | (none, _) => line
    | (some qty, rest) => pystrip (float_to_fraction_str (qty * factor) ++ ' ' :: rest)

end AdvisoryPage

/-- One prepared recipe record: the columns of the working corpus produced by
`load_and_prepare_data` that the engine reads downstream. -/
structure RecipeRow where
  recipe_name : List Char
  servings : ℚ
  calories : ℚ
  calories_per_serving : ℚ
  protein_g : ℚ
  fat_g : ℚ
  carbs_g : ℚ
  ingredients_list : List (List Char)
  ingredient_lines_per_serving : List (List Char)
  diet_labels : List Char
  meal_type : List Char
deriving DecidableEq

/-- The raw `servings` cell before coercion: missing (NaN, removed by
`dropna`), a non-numeric string (kept by `dropna`, turned into NaN by
`pd.to_numeric(errors="coerce")` and then into 1 by `fillna(1)`), or a
number. -/
inductive ServingsCell where
  | missing
  | nonNumeric
  | num (q : ℚ)
deriving DecidableEq

/-- One raw dataset row as seen by `load_and_prepare_data`, with the
heterogeneous cells already taken through the local helpers:
`protein_g_total`/`fat_g_total`/`carbs_g_total` are the `get_nutrient`
results (`none` = extraction failure = NaN), `calories` is the numeric
calories cell (`none` = NaN), `ingredients_list` is the
`parse_ingredients_for_allergy` output (lowercased tokens) and
`ingredient_lines_parsed` the `parse_ingredient_lines_for_display` output. -/
structure RawRecipeRow where
  recipe_name : List Char
  protein_g_total : Option ℚ
  fat_g_total : Option ℚ
  carbs_g_total : Option ℚ
  calories : Option ℚ
  servings : ServingsCell
  ingredients_list : List (List Char)
  ingredient_lines_parsed : List (List Char)
  diet_labels : List Char
  meal_type : List Char
deriving DecidableEq

namespace AdvisoryApp

/-- The servings coercion of src/unnamed/part_000 lines 188-189:
`pd.to_numeric(..., errors="coerce").fillna(1)` then
`df.loc[df["servings"] <= 0, "servings"] = 1`.  Note a numeric value in
(0, 1) survives unchanged. -/
def coerceServings : ServingsCell → ℚ
  | .missing => 1
  | .nonNumeric => 1
  | .num q => if q ≤ 0 then 1 else q

/-- `load_and_prepare_data` of src/unnamed/part_000 (lines 173-210): drop
rows with a missing nutrient/calories/servings cell, coerce servings, derive
the per-serving columns, keep only rows passing the high-protein /
calorie-ceiling prefilter, and attach the parsed ingredient fields plus the
per-serving ingredient lines. -/
def load_and_prepare_data (rows : List RawRecipeRow) : List RecipeRow :=
  rows.filterMap fun r =>
    match r.protein_g_total, r.fat_g_total, r.carbs_g_total, r.calories with
    | some pt, some ft, some ct, some cal =>
      if r.servings = ServingsCell.missing then none
      else
        let s := coerceServings r.servings
        let cps := cal / s
        let prot := pt / s
        if 25 ≤ prot ∧ cps ≤ 800 then
          some { recipe_name := r.recipe_name, servings := s, calories := cal,
                 calories_per_serving := cps, protein_g := prot,
                 fat_g := ft / s, carbs_g := ct / s,
                 ingredients_list := r.ingredients_list,
                 ingredient_lines_per_serving :=
                   scale_ingredient_lines r.ingredient_lines_parsed (1 / s),
                 diet_labels := r.diet_labels, meal_type := r.meal_type }
        else none
    | _, _, _, _ => none

end AdvisoryApp

namespace AdvisoryPage

/-- The servings coercion of src/nutrition_advisory.py line 169:
`pd.to_numeric(..., errors="coerce").fillna(1).clip(lower=1)`; every value
below 1 (including fractional ones) is raised to 1. -/
def coerceServings : ServingsCell → ℚ
  | .missing => 1
  | .nonNumeric => 1
  | .num q => max 1 q

/-- `load_and_prepare_data` of src/nutrition_advisory.py (lines 159-187);
identical pipeline to the unnamed module's apart from the servings
coercion. -/
def load_and_prepare_data (rows : List RawRecipeRow) : List RecipeRow :=
  rows.filterMap fun r =>
    match r.protein_g_total, r.fat_g_total, r.carbs_g_total, r.calories with
    | some pt, some ft, some ct, some cal =>
      if r.servings = ServingsCell.missing then none
      else
        let s := coerceServings r.servings
        let cps := cal / s
        let prot := pt / s
        if 25 ≤ prot ∧ cps ≤ 800 then
          some { recipe_name := r.recipe_name, servings := s, calories := cal,
                 calories_per_serving := cps, protein_g := prot,
                 fat_g := ft / s, carbs_g := ct / s,
                 ingredients_list := r.ingredients_list,
                 ingredient_lines_per_serving :=
                   scale_ingredient_lines r.ingredient_lines_parsed (1 / s),
                 diet_labels := r.diet_labels, meal_type := r.meal_type }
        else none
    | _, _, _, _ => none

end AdvisoryPage

/-- `a in x` on Python strings: contiguous-substring containment. -/
def pyContains (needle hay : List Char) : Bool := decide (needle <:+: hay)

/-- The session preference model (class `UserPreferenceModel`, identical in
src/unnamed/part_000 lines 34-52 and src/nutrition_advisory.py lines 44-62):
two `Counter`s over ingredient tokens, modelled as multisets. -/
structure UserPreferenceModel where
  liked_ingredients : Multiset (List Char)
  disliked_ingredients : Multiset (List Char)
deriving DecidableEq

/-- `UserPreferenceModel()`: both counters empty. -/
def UserPreferenceModel.init : UserPreferenceModel := ⟨0, 0⟩

/-- `update_with_rating` of both advisory modules: positive rating adds every
ingredient token of the row to the liked counter, negative rating to the
disliked counter, rating 0 does nothing (`if rating > 0 ... elif rating <
0`). -/
def UserPreferenceModel.update_with_rating (m : UserPreferenceModel)
    (row : RecipeRow) (rating : ℤ) : UserPreferenceModel :=
  let ings := row.ingredients_list
  if 0 < rating then
    { m with liked_ingredients := m.liked_ingredients + ↑ings }
  else if rating < 0 then
    { m with disliked_ingredients := m.disliked_ingredients + ↑ings }
  else m

/-- `score_recipe`: sum over the row's ingredient tokens of liked count minus
disliked count (the Python loop accumulates a float; the counts are
integers, so the value is an integer). -/
def UserPreferenceModel.score_recipe (m : UserPreferenceModel) (row : RecipeRow) : ℤ :=
  (row.ingredients_list.map
    (fun ing => (m.liked_ingredients.count ing : ℤ) - (m.disliked_ingredients.count ing : ℤ))).sum

namespace CaloriesNutrition

/-- The `UserPreferenceModel` copy in src/calories_nutrition.py (lines
239-256), with fields named `liked` / `disliked`. -/
structure UserPreferenceModel where
  liked : Multiset (List Char)
  disliked : Multiset (List Char)
deriving DecidableEq

/-- `update_with_rating` of src/calories_nutrition.py lines 244-249.  Unlike
the advisory modules this version has a bare `else`: every rating that is
not strictly positive, including 0, adds the row's ingredient tokens to the
disliked counter. -/
def UserPreferenceModel.update_with_rating (m : UserPreferenceModel)
    (row : RecipeRow) (rating : ℤ) : UserPreferenceModel :=
  let ings := row.ingredients_list
  if 0 < rating then { m with liked := m.liked + ↑ings }
  else { m with disliked := m.disliked + ↑ings }

end CaloriesNutrition

namespace AdvisoryApp

/-- `filter_by_preferences` of src/unnamed/part_000 (lines 217-235):
normalize the diet preference (`or "omnivore"`, lowercase) and the allergy
list (strip, lowercase, drop empties); vegan keeps rows whose `diet_labels`
contains "vegan" case-insensitively, vegetarian keeps "vegetarian" or
"vegan"; then drop any row one of whose ingredient tokens contains one of
the normalized allergy strings as a substring. -/
def filter_by_preferences (df : List RecipeRow) (diet_pref : List Char)
    (allergies : List (List Char)) : List RecipeRow :=
  let dp := pylower (if diet_pref = [] then ("omnivore".data) else diet_pref)
  let als := (allergies.filter (fun a => pystrip a ≠ [])).map (fun a => pylower (pystrip a))
  let res :=
    if dp = ("vegan".data) then
      df.filter (fun r => pyContains ("vegan".data) (pylower r.diet_labels))
    else if dp = ("vegetarian".data) then
      df.filter (fun r => pyContains ("vegetarian".data) (pylower r.diet_labels)
        || pyContains ("vegan".data) (pylower r.diet_labels))
    else df
  if als = [] then res
  else res.filter (fun r =>
    ! als.any (fun a => r.ingredients_list.any (fun x => pyContains a x)))

end AdvisoryApp

namespace AdvisoryPage

/-- `filter_by_preferences` of src/nutrition_advisory.py (lines 193-214):
same diet filtering, but the allergy list is only lowercased — it is NOT
stripped and empties are NOT dropped. -/
def filter_by_preferences (df : List RecipeRow) (diet_pref : List Char)
    (allergies : List (List Char)) : List RecipeRow :=
  let dp := pylower diet_pref
  let als := allergies.map pylower
  let res :=
    if dp = ("vegan".data) then
      df.filter (fun r => pyContains ("vegan".data) (pylower r.diet_labels))
    else if dp = ("vegetarian".data) then
      df.filter (fun r => pyContains ("vegetarian".data) (pylower r.diet_labels)
        || pyContains ("vegan".data) (pylower r.diet_labels))
    else df
  if als = [] then res
  else res.filter (fun r =>
    ! als.any (fun a => r.ingredients_list.any (fun x => pyContains a x)))

end AdvisoryPage

/-- Row predicate for `df["meal_type"].str.contains(meal_type, case=False)`. -/
def mealTypeMatches (mt : List Char) (r : RecipeRow) : Bool :=
  pyContains (pylower mt) (pylower r.meal_type)

/-- `|calories_per_serving - target|`, the `cal_diff` helper column. -/
def calDiff (target : ℚ) (r : RecipeRow) : ℚ := |r.calories_per_serving - target|

/-- `sort_values(["protein_g", "cal_diff"], ascending=[False, True])` as a
total preorder: higher protein first, ties by smaller calorie distance. -/
def proteinOrder (t : ℚ) (a b : RecipeRow) : Prop :=
  b.protein_g < a.protein_g ∨ (b.protein_g = a.protein_g ∧ calDiff t a ≤ calDiff t b)

/-- `sort_values(["carbs_g", "cal_diff"], ascending=[False, True])`. -/
def carbsOrder (t : ℚ) (a b : RecipeRow) : Prop :=
  b.carbs_g < a.carbs_g ∨ (b.carbs_g = a.carbs_g ∧ calDiff t a ≤ calDiff t b)

/-- `sort_values("cal_diff", ascending=True)`. -/
def calDiffOrder (t : ℚ) (a b : RecipeRow) : Prop := calDiff t a ≤ calDiff t b

/-- `sort_values(["score", "cal_diff"], ascending=[False, True])`. -/
def scoreOrder (m : UserPreferenceModel) (t : ℚ) (a b : RecipeRow) : Prop :=
  m.score_recipe b < m.score_recipe a
    ∨ (m.score_recipe b = m.score_recipe a ∧ calDiff t a ≤ calDiff t b)

instance (t : ℚ) : DecidableRel (proteinOrder t) := fun _ _ => by
  unfold proteinOrder; infer_instance

instance (t : ℚ) : DecidableRel (carbsOrder t) := fun _ _ => by
  unfold carbsOrder; infer_instance

instance (t : ℚ) : DecidableRel (calDiffOrder t) := fun _ _ => by
  unfold calDiffOrder; infer_instance

instance (m : UserPreferenceModel) (t : ℚ) : DecidableRel (scoreOrder m t) := fun _ _ => by
  unfold scoreOrder; infer_instance

/-- `DataFrame.sample(1).iloc[0]` with an explicit selection index: the
random draw is modelled by `choice`, reduced mod the number of rows, so a
uniformly distributed `choice` picks each row position with equal
probability; `none` on an empty frame. -/
def pysample (l : List α) (choice : ℕ) : Option α := l.get? (choice % l.length)

namespace AdvisoryApp

/-- The fully sorted candidate list built inside `pick_meal` of
src/unnamed/part_000 (lines 278-306): filter by meal type, order by the
training-goal keys (`(training_goal or "").lower()`), then — when a
preference model is present — re-sort by (score desc, cal_diff asc).
`pandas.sort_values` is modelled as a stable sort (its default quicksort
kind leaves tie order unspecified; the stable realization is the canonical
member of that family and tie order never matters to the claims proved
about this function). -/
def pick_meal_candidates (df : List RecipeRow) (meal_type : List Char) (target_cal : ℚ)
    (training_goal : List Char) (pref : Option UserPreferenceModel) : List RecipeRow :=
  let base := df.filter (mealTypeMatches meal_type)
  let g := pylower training_goal
  let sorted1 :=
    if g = ("strength".data) then base.insertionSort (proteinOrder target_cal)
    else if g = ("endurance".data) then base.insertionSort (carbsOrder target_cal)
    else base.insertionSort (calDiffOrder target_cal)
  match pref with
  | some m => sorted1.insertionSort (scoreOrder m target_cal)
  | none => sorted1

/-- `pick_meal` of src/unnamed/part_000: `None` when no row's `meal_type`
contains the slot name, else one uniformly sampled row of the first
`min(20, len(base))` candidates in the final ordering. -/
def pick_meal (df : List RecipeRow) (meal_type : List Char) (target_cal : ℚ)
    (training_goal : List Char) (pref : Option UserPreferenceModel) (choice : ℕ) :
    Option RecipeRow :=
  if df.filter (mealTypeMatches meal_type) = [] then none
  else
    let cands := pick_meal_candidates df meal_type target_cal training_goal pref
    pysample (cands.take (min 20 cands.length)) choice

end AdvisoryApp

namespace AdvisoryPage

/-- The sorted candidate list of `pick_meal` in src/nutrition_advisory.py
(lines 251-271); this version compares `training_goal` without lowercasing
and guards the preference re-sort by an `isinstance` check (modelled by the
option). -/
def pick_meal_candidates (df : List RecipeRow) (meal_type : List Char) (target_cal : ℚ)
    (training_goal : List Char) (pref : Option UserPreferenceModel) : List RecipeRow :=
  let base := df.filter (mealTypeMatches meal_type)
  let sorted1 :=
    if training_goal = ("strength".data) then base.insertionSort (proteinOrder target_cal)
    else if training_goal = ("endurance".data) then base.insertionSort (carbsOrder target_cal)
    else base.insertionSort (calDiffOrder target_cal)
  match pref with
  | some m => sorted1.insertionSort (scoreOrder m target_cal)
  | none => sorted1

/-- `pick_meal` of src/nutrition_advisory.py: `None` on an empty meal-type
restriction, else one uniformly sampled row of `head(20)` of the final
ordering. -/
def pick_meal (df : List RecipeRow) (meal_type : List Char) (target_cal : ℚ)
    (training_goal : List Char) (pref : Option UserPreferenceModel) (choice : ℕ) :
    Option RecipeRow :=
  if df.filter (mealTypeMatches meal_type) = [] then none
  else
    let cands := pick_meal_candidates df meal_type target_cal training_goal pref
    pysample (cands.take 20) choice

end AdvisoryPage

/-- Loop invariant of `limitDenLoop` relative to the target fraction `N/D`:
the state rows recombine `n, d` into `N, D`, consecutive convergents have
unit determinant, the convergent denominators are within bounds and the
Euclid pair is strictly decreasing and positive. -/
def LDInv (M N D p0 q0 p1 q1 n : ℤ) (d : ℕ) : Prop :=
  p1 * n + p0 * (d : ℤ) = N ∧ q1 * n + q0 * (d : ℤ) = D ∧
  (p1 * q0 - p0 * q1 = 1 ∨ p1 * q0 - p0 * q1 = -1) ∧
  0 ≤ q0 ∧ q0 ≤ q1 ∧ 1 ≤ q1 ∧ q1 ≤ M ∧ 1 ≤ (d : ℤ) ∧ (d : ℤ) < n

/-! ### Loader inversion lemmas -/

/-- Inversion for membership in the unnamed module's prepared corpus: the
record comes from a raw row with present nutrient/calories/servings cells,
its derived fields are the coerced-servings quotients, and it passed the
prefilter. -/
theorem AdvisoryApp.load_mem_inv_app {rows : List RawRecipeRow} {rec : RecipeRow}
    (h : rec ∈ AdvisoryApp.load_and_prepare_data rows) :
    ∃ r ∈ rows, ∃ pt cal,
      r.protein_g_total = some pt ∧ r.calories = some cal ∧
      r.servings ≠ ServingsCell.missing ∧
      rec.servings = AdvisoryApp.coerceServings r.servings ∧
      rec.calories = cal ∧
      rec.calories_per_serving = cal / AdvisoryApp.coerceServings r.servings ∧
      rec.protein_g = pt / AdvisoryApp.coerceServings r.servings ∧
      25 ≤ rec.protein_g ∧ rec.calories_per_serving ≤ 800 := by
  unfold AdvisoryApp.load_and_prepare_data at h
  rw [List.mem_filterMap] at h
  obtain ⟨r, hr, hfr⟩ := h
  obtain ⟨nm, pto, fto, cto, calo, sv, il, ilp, dl, mt⟩ := r
  rcases pto with _ | pt
  · simp at hfr
  rcases fto with _ | ft
  · simp at hfr
  rcases cto with _ | ct
  · simp at hfr
  rcases calo with _ | cal
  · simp at hfr
  dsimp only at hfr
  split_ifs at hfr with h1 h2
  rw [Option.some_inj] at hfr
  subst hfr
  exact ⟨_, hr, pt, cal, rfl, rfl, h1, rfl, rfl, rfl, rfl, h2.1, h2.2⟩

/-- Inversion for membership in the nutrition_advisory.py prepared corpus. -/
theorem AdvisoryPage.load_mem_inv_page {rows : List RawRecipeRow} {rec : RecipeRow}
    (h : rec ∈ AdvisoryPage.load_and_prepare_data rows) :
    ∃ r ∈ rows, ∃ pt cal,
      r.protein_g_total = some pt ∧ r.calories = some cal ∧
      r.servings ≠ ServingsCell.missing ∧
      rec.servings = AdvisoryPage.coerceServings r.servings ∧
      rec.calories = cal ∧
      rec.calories_per_serving = cal / AdvisoryPage.coerceServings r.servings ∧
      rec.protein_g = pt / AdvisoryPage.coerceServings r.servings ∧
      25 ≤ rec.protein_g ∧ rec.calories_per_serving ≤ 800 := by
  unfold AdvisoryPage.load_and_prepare_data at h
  rw [List.mem_filterMap] at h
  obtain ⟨r, hr, hfr⟩ := h
  obtain ⟨nm, pto, fto, cto, calo, sv, il, ilp, dl, mt⟩ := r
  rcases pto with _ | pt
  · simp at hfr
  rcases fto with _ | ft
  · simp at hfr
  rcases cto with _ | ct
  · simp at hfr
  rcases calo with _ | cal
  · simp at hfr
  dsimp only at hfr
  split_ifs at hfr with h1 h2
  rw [Option.some_inj] at hfr
  subst hfr
  exact ⟨_, hr, pt, cal, rfl, rfl, h1, rfl, rfl, rfl, rfl, h2.1, h2.2⟩

/-- Both coercions yield a positive value; the page one is at least 1. -/
theorem coerceServings_pos (c : ServingsCell) :
    0 < AdvisoryApp.coerceServings c ∧ 1 ≤ AdvisoryPage.coerceServings c := by
  rcases c with _ | _ | q <;>
    simp only [AdvisoryApp.coerceServings, AdvisoryPage.coerceServings]
  · norm_num
  · norm_num
  · constructor
    · split_ifs with h
      · norm_num
      · linarith [not_le.mp h]
    · exact le_max_left 1 q

/-- Claim C2: every record in the working corpus produced by either loader
satisfies the high-protein/calorie-ceiling prefilter, `protein_g >= 25` and
`calories_per_serving <= 800`; no violating row is present after load. -/
theorem load_prefilter_invariant (rows : List RawRecipeRow) :
    (∀ rec ∈ AdvisoryApp.load_and_prepare_data rows,
        25 ≤ rec.protein_g ∧ rec.calories_per_serving ≤ 800) ∧
    (∀ rec ∈ AdvisoryPage.load_and_prepare_data rows,
        25 ≤ rec.protein_g ∧ rec.calories_per_serving ≤ 800) := by
  constructor
  · intro rec h
    obtain ⟨_, _, _, _, _, _, _, _, _, _, _, hb1, hb2⟩ := AdvisoryApp.load_mem_inv_app h
    exact ⟨hb1, hb2⟩
  · intro rec h
    obtain ⟨_, _, _, _, _, _, _, _, _, _, _, hb1, hb2⟩ := AdvisoryPage.load_mem_inv_page h
    exact ⟨hb1, hb2⟩

/-- Witness for C2 at a concrete one-row corpus. -/
theorem load_prefilter_invariant_witness :
    25 ≤ ({ recipe_name := ("a".data), servings := 1, calories := 100,
            calories_per_serving := 100, protein_g := 30, fat_g := 1, carbs_g := 1,
            ingredients_list := [], ingredient_lines_per_serving := [],
            diet_labels := [], meal_type := [] } : RecipeRow).protein_g ∧
    ({ recipe_name := ("a".data), servings := 1, calories := 100,
       calories_per_serving := 100, protein_g := 30, fat_g := 1, carbs_g := 1,
       ingredients_list := [], ingredient_lines_per_serving := [],
       diet_labels := [], meal_type := [] } : RecipeRow).calories_per_serving ≤ 800 :=
  (load_prefilter_invariant
    [{ recipe_name := ("a".data), protein_g_total := some 30, fat_g_total := some 1,
       carbs_g_total := some 1, calories := some 100, servings := ServingsCell.num 1,
       ingredients_list := [], ingredient_lines_parsed := [],
       diet_labels := [], meal_type := [] }]).1 _ (by with_unfolding_all decide)

/-- Counterexample to claim C3 as stated: the unnamed module's loader keeps
a row with numeric servings 1/2 (it only replaces servings <= 0), so the
prepared corpus contains a record with `servings < 1`. -/
theorem load_servings_lt_one_counterexample :
    ∃ rec ∈ AdvisoryApp.load_and_prepare_data
      [{ recipe_name := ("a".data), protein_g_total := some 20, fat_g_total := some 1,
         carbs_g_total := some 1, calories := some 100,
         servings := ServingsCell.num (1/2),
         ingredients_list := [], ingredient_lines_parsed := [],
         diet_labels := [], meal_type := [] }],
      rec.servings < 1 := by
  with_unfolding_all decide

/-- Claim C3 as amended: for every surviving row, servings is coerced
(non-numeric to 1, values at most 0 to 1) and `calories_per_serving` is
exactly `calories / servings`; every record of the unnamed module's corpus
has `servings > 0` (fractional servings in (0,1) survive there), while the
nutrition_advisory.py loader clips and guarantees `servings >= 1`. -/
theorem load_servings_coercion (rows : List RawRecipeRow) :
    (∀ rec ∈ AdvisoryApp.load_and_prepare_data rows,
        0 < rec.servings ∧ rec.calories_per_serving = rec.calories / rec.servings) ∧
    (∀ rec ∈ AdvisoryPage.load_and_prepare_data rows,
        1 ≤ rec.servings ∧ rec.calories_per_serving = rec.calories / rec.servings) ∧
    AdvisoryApp.coerceServings ServingsCell.nonNumeric = 1 ∧
    AdvisoryPage.coerceServings ServingsCell.nonNumeric = 1 ∧
    (∀ q : ℚ, q ≤ 0 → AdvisoryApp.coerceServings (ServingsCell.num q) = 1) ∧
    (∀ q : ℚ, q ≤ 0 → AdvisoryPage.coerceServings (ServingsCell.num q) = 1) := by
  refine ⟨?_, ?_, rfl, rfl, ?_, ?_⟩
  · intro rec h
    obtain ⟨r, _, pt, cal, _, _, _, hs, hcal, hcps, _, _, _⟩ := AdvisoryApp.load_mem_inv_app h
    refine ⟨hs ▸ (coerceServings_pos r.servings).1, ?_⟩
    rw [hcal, hcps, hs]
  · intro rec h
    obtain ⟨r, _, pt, cal, _, _, _, hs, hcal, hcps, _, _, _⟩ := AdvisoryPage.load_mem_inv_page h
    refine ⟨hs ▸ (coerceServings_pos r.servings).2, ?_⟩
    rw [hcal, hcps, hs]
  · intro q hq
    simp [AdvisoryApp.coerceServings, hq]
  · intro q hq
    simp [AdvisoryPage.coerceServings]
    linarith

/-- Witness for the amended C3 at a concrete one-row corpus. -/
theorem load_servings_coercion_witness :
    0 < ({ recipe_name := ("a".data), servings := 1/2, calories := 100,
           calories_per_serving := 200, protein_g := 40, fat_g := 2, carbs_g := 2,
           ingredients_list := [], ingredient_lines_per_serving := [],
           diet_labels := [], meal_type := [] } : RecipeRow).servings ∧
    ({ recipe_name := ("a".data), servings := 1/2, calories := 100,
       calories_per_serving := 200, protein_g := 40, fat_g := 2, carbs_g := 2,
       ingredients_list := [], ingredient_lines_per_serving := [],
       diet_labels := [], meal_type := [] } : RecipeRow).calories_per_serving
      = ({ recipe_name := ("a".data), servings := 1/2, calories := 100,
           calories_per_serving := 200, protein_g := 40, fat_g := 2, carbs_g := 2,
           ingredients_list := [], ingredient_lines_per_serving := [],
           diet_labels := [], meal_type := [] } : RecipeRow).calories
        / ({ recipe_name := ("a".data), servings := 1/2, calories := 100,
             calories_per_serving := 200, protein_g := 40, fat_g := 2, carbs_g := 2,
             ingredients_list := [], ingredient_lines_per_serving := [],
             diet_labels := [], meal_type := [] } : RecipeRow).servings :=
  (load_servings_coercion
    [{ recipe_name := ("a".data), protein_g_total := some 20, fat_g_total := some 1,
       carbs_g_total := some 1, calories := some 100,
       servings := ServingsCell.num (1/2),
       ingredients_list := [], ingredient_lines_parsed := [],
       diet_labels := [], meal_type := [] }]).1 _ (by with_unfolding_all decide)

/-! ### Allergy filtering (C1) -/

/-- If an element survives a conditionally applied filter, and the condition
that skips the filter fails, the filter predicate holds of it. -/
theorem mem_ite_filter {P : Prop} [Decidable P] {res : List α} {q : α → Bool} {x : α}
    (h : x ∈ if P then res else res.filter q) (hnp : ¬ P) : q x = true := by
  rw [if_neg hnp] at h
  exact (List.mem_filter.mp h).2

/-- Membership of the normalized form of a non-blank allergy string in the
unnamed module's normalized allergy list. -/
theorem mem_normalized_allergies {allergies : List (List Char)} {a : List Char}
    (ha : a ∈ allergies) (hne : pystrip a ≠ []) :
    pylower (pystrip a) ∈
      (allergies.filter (fun a => pystrip a ≠ [])).map (fun a => pylower (pystrip a)) :=
  List.mem_map_of_mem _ (List.mem_filter.mpr ⟨ha, by simpa using hne⟩)

/-- Counterexample to claim C1 as stated: nutrition_advisory.py's
`filter_by_preferences` lowercases but does not trim allergy strings, so
with the allergy list `[" peanut "]` a recipe whose ingredient token
"peanut butter" contains the trimmed, lowercased allergy "peanut" is still
returned. -/
theorem filter_allergy_counterexample :
    ∃ rec ∈ AdvisoryPage.filter_by_preferences
        [{ recipe_name := ("a".data), servings := 1, calories := 100,
           calories_per_serving := 100, protein_g := 30, fat_g := 1, carbs_g := 1,
           ingredients_list := [("peanut butter".data)],
           ingredient_lines_per_serving := [], diet_labels := [], meal_type := [] }]
        ("omnivore".data) [(" peanut ".data)],
      ∃ tok ∈ rec.ingredients_list,
        pylower (pystrip (" peanut ".data)) ≠ [] ∧
        pyContains (pylower (pystrip (" peanut ".data))) tok = true := by
  with_unfolding_all decide

/-- Claim C1 as amended: for the unnamed module's `filter_by_preferences`
the claimed exclusion holds for every corpus, diet preference and allergy
list; for nutrition_advisory.py's version it holds provided every allergy
string equals its own trim (no surrounding whitespace).  In both cases no
returned recipe has an ingredient token containing a (trimmed, lowercased,
non-blank) allergy string as a substring. -/
theorem filter_allergy_excludes (df : List RecipeRow) (diet : List Char)
    (allergies : List (List Char)) :
    (∀ rec ∈ AdvisoryApp.filter_by_preferences df diet allergies,
        ∀ tok ∈ rec.ingredients_list, ∀ a ∈ allergies,
          pystrip a ≠ [] → pyContains (pylower (pystrip a)) tok = false) ∧
    ((∀ a ∈ allergies, pystrip a = a) →
      ∀ rec ∈ AdvisoryPage.filter_by_preferences df diet allergies,
        ∀ tok ∈ rec.ingredients_list, ∀ a ∈ allergies,
          pystrip a ≠ [] → pyContains (pylower (pystrip a)) tok = false) := by
  constructor
  · intro rec hrec tok htok a ha hne
    unfold AdvisoryApp.filter_by_preferences at hrec
    dsimp only at hrec
    by_cases hals :
        (allergies.filter (fun a => pystrip a ≠ [])).map (fun a => pylower (pystrip a)) = []
    · exact absurd (hals ▸ mem_normalized_allergies ha hne) (List.not_mem_nil _)
    · have hpred := mem_ite_filter hrec hals
      simp only [Bool.not_eq_true', List.any_eq_false] at hpred
      have h3 := hpred _ (mem_normalized_allergies ha hne)
      simp only [Bool.not_eq_true, List.any_eq_false, Bool.not_eq_true'] at h3
      exact h3 tok htok
  · intro htrim rec hrec tok htok a ha hne
    unfold AdvisoryPage.filter_by_preferences at hrec
    dsimp only at hrec
    by_cases hals : allergies.map pylower = []
    · exact absurd (hals ▸ List.mem_map_of_mem pylower ha)
        (List.not_mem_nil (pylower a))
    · have hpred := mem_ite_filter hrec hals
      simp only [Bool.not_eq_true', List.any_eq_false] at hpred
      have hmem : pylower (pystrip a) ∈ allergies.map pylower := by
        rw [htrim a ha]; exact List.mem_map_of_mem pylower ha
      have h3 := hpred _ hmem
      simp only [Bool.not_eq_true, List.any_eq_false, Bool.not_eq_true'] at h3
      exact h3 tok htok

/-- Witness for the amended C1: with allergy list `["peanut"]` a surviving
recipe (token "chicken") indeed has no token containing "peanut". -/
theorem filter_allergy_excludes_witness :
    pyContains (pylower (pystrip ("peanut".data))) ("chicken".data) = false :=
  (filter_allergy_excludes
      [{ recipe_name := ("a".data), servings := 1, calories := 100,
         calories_per_serving := 100, protein_g := 30, fat_g := 1, carbs_g := 1,
         ingredients_list := [("chicken".data)],
         ingredient_lines_per_serving := [], diet_labels := [], meal_type := [] }]
      ("omnivore".data) [("peanut".data)]).1
    { recipe_name := ("a".data), servings := 1, calories := 100,
      calories_per_serving := 100, protein_g := 30, fat_g := 1, carbs_g := 1,
      ingredients_list := [("chicken".data)],
      ingredient_lines_per_serving := [], diet_labels := [], meal_type := [] }
    (by with_unfolding_all decide)
    ("chicken".data) (by with_unfolding_all decide)
    ("peanut".data) (by with_unfolding_all decide)
    (by with_unfolding_all decide)

/-! ### Preference model update (C9) -/

/-- Claim C9, failing-input evaluation: the `UserPreferenceModel` copy in
src/calories_nutrition.py does NOT treat rating 0 as a no-op — its bare
`else` adds every ingredient token to the disliked counter, so updating an
empty model with rating 0 on a recipe with ingredient "egg" changes the
model (the two advisory modules' copies, with `elif rating < 0`, leave the
model unchanged there).  This contradicts the spec sentence "rating == 0 →
no-op" and the two sibling implementations. -/
theorem update_with_rating_zero_bug :
    CaloriesNutrition.UserPreferenceModel.update_with_rating ⟨0, 0⟩
        { recipe_name := ("a".data), servings := 1, calories := 100,
          calories_per_serving := 100, protein_g := 30, fat_g := 1, carbs_g := 1,
          ingredients_list := [("egg".data)], ingredient_lines_per_serving := [],
          diet_labels := [], meal_type := [] } 0
      = ⟨0, (↑[("egg".data)] : Multiset (List Char))⟩ ∧
    CaloriesNutrition.UserPreferenceModel.update_with_rating ⟨0, 0⟩
        { recipe_name := ("a".data), servings := 1, calories := 100,
          calories_per_serving := 100, protein_g := 30, fat_g := 1, carbs_g := 1,
          ingredients_list := [("egg".data)], ingredient_lines_per_serving := [],
          diet_labels := [], meal_type := [] } 0
      ≠ ⟨0, 0⟩ ∧
    (∀ (m : UserPreferenceModel) (row : RecipeRow),
        m.update_with_rating row 0 = m) := by
  refine ⟨?_, ?_, ?_⟩
  · simp [CaloriesNutrition.UserPreferenceModel.update_with_rating]
  · simp [CaloriesNutrition.UserPreferenceModel.update_with_rating]
  · intro m row
    simp [UserPreferenceModel.update_with_rating]

/-! ### Meal selection (C4) -/

/-- `l.take (min 20 l.length)` is just `l.take 20`. -/
theorem take_min_twenty (l : List α) : l.take (min 20 l.length) = l.take 20 := by
  rcases le_total 20 l.length with h | h
  · rw [min_eq_left h]
  · rw [min_eq_right h, List.take_length, List.take_of_length_le h]

/-- Sampling is `none` exactly on the empty list. -/
theorem pysample_eq_none_iff (l : List α) (c : ℕ) : pysample l c = none ↔ l = [] := by
  unfold pysample
  constructor
  · intro h
    rcases List.eq_nil_or_concat l with rfl | ⟨_, _, rfl⟩
    · rfl
    · rw [List.get?_eq_none] at h
      exact absurd h (not_le.mpr (Nat.mod_lt _ (by simp)))
  · rintro rfl
    rfl

/-- A sampled element is an element. -/
theorem pysample_mem {l : List α} {c : ℕ} {x : α} (h : pysample l c = some x) : x ∈ l :=
  List.get?_mem h

/-- In-range selection indices sample the list in order. -/
theorem pysample_get? {l : List α} {i : ℕ} (h : i < l.length) :
    pysample l i = l.get? i := by
  unfold pysample
  rw [Nat.mod_eq_of_lt h]

/-- The unnamed module's candidate list is a permutation of the meal-type
restriction of the corpus. -/
theorem AdvisoryApp.pick_meal_candidates_perm_app (df : List RecipeRow) (mt : List Char)
    (t : ℚ) (g : List Char) (pref : Option UserPreferenceModel) :
    List.Perm (AdvisoryApp.pick_meal_candidates df mt t g pref)
      (df.filter (mealTypeMatches mt)) := by
  unfold AdvisoryApp.pick_meal_candidates
  rcases pref with _ | m <;> dsimp only <;> split_ifs <;>
    first
      | exact List.perm_insertionSort _ _
      | exact (List.perm_insertionSort _ _).trans (List.perm_insertionSort _ _)

/-- Same for nutrition_advisory.py. -/
theorem AdvisoryPage.pick_meal_candidates_perm_page (df : List RecipeRow) (mt : List Char)
    (t : ℚ) (g : List Char) (pref : Option UserPreferenceModel) :
    List.Perm (AdvisoryPage.pick_meal_candidates df mt t g pref)
      (df.filter (mealTypeMatches mt)) := by
  unfold AdvisoryPage.pick_meal_candidates
  rcases pref with _ | m <;> dsimp only <;> split_ifs <;>
    first
      | exact List.perm_insertionSort _ _
      | exact (List.perm_insertionSort _ _).trans (List.perm_insertionSort _ _)

/-- Claim C4: in both modules, `pick_meal` returns no selection exactly when
no corpus row's `meal_type` substring-contains (case-insensitively) the
requested slot name; any returned recipe is a member of the first
`min(20, n)` candidates of the final ordering; and the selection index
(modelling the uniform draw of `sample(1)`) enumerates exactly those top
candidates in order, so a uniformly distributed index induces the uniform
choice over that set. -/
theorem pick_meal_spec (df : List RecipeRow) (mt : List Char) (t : ℚ)
    (g : List Char) (pref : Option UserPreferenceModel) :
    (∀ choice, (AdvisoryApp.pick_meal df mt t g pref choice = none ↔
        ∀ r ∈ df, mealTypeMatches mt r = false)) ∧
    (∀ choice rec, AdvisoryApp.pick_meal df mt t g pref choice = some rec →
        rec ∈ (AdvisoryApp.pick_meal_candidates df mt t g pref).take 20) ∧
    (∀ i, i < min 20 (AdvisoryApp.pick_meal_candidates df mt t g pref).length →
        AdvisoryApp.pick_meal df mt t g pref i =
          ((AdvisoryApp.pick_meal_candidates df mt t g pref).take 20).get? i) ∧
    (∀ choice, (AdvisoryPage.pick_meal df mt t g pref choice = none ↔
        ∀ r ∈ df, mealTypeMatches mt r = false)) ∧
    (∀ choice rec, AdvisoryPage.pick_meal df mt t g pref choice = some rec →
        rec ∈ (AdvisoryPage.pick_meal_candidates df mt t g pref).take 20) ∧
    (∀ i, i < min 20 (AdvisoryPage.pick_meal_candidates df mt t g pref).length →
        AdvisoryPage.pick_meal df mt t g pref i =
          ((AdvisoryPage.pick_meal_candidates df mt t g pref).take 20).get? i) := by
  have happ := AdvisoryApp.pick_meal_candidates_perm_app df mt t g pref
  have hpage := AdvisoryPage.pick_meal_candidates_perm_page df mt t g pref
  have happ_len := happ.length_eq
  have hpage_len := hpage.length_eq
  refine ⟨?_, ?_, ?_, ?_, ?_, ?_⟩
  · intro choice
    unfold AdvisoryApp.pick_meal
    split_ifs with hb
    · simpa [List.filter_eq_nil_iff] using hb
    · dsimp only
      rw [take_min_twenty]
      constructor
      · intro hn
        have h0 : (AdvisoryApp.pick_meal_candidates df mt t g pref).take 20 = [] :=
          (pysample_eq_none_iff _ _).mp hn
        have hc : AdvisoryApp.pick_meal_candidates df mt t g pref = [] := by
          rcases hx : (AdvisoryApp.pick_meal_candidates df mt t g pref) with _ | ⟨a, l⟩
          · rfl
          · rw [hx] at h0; simp at h0
        rw [hc] at happ_len
        exact absurd (List.length_eq_zero.mp happ_len.symm) hb
      · intro hall
        exact absurd (List.filter_eq_nil_iff.mpr (fun r hr => by simp [hall r hr])) hb
  · intro choice rec h
    unfold AdvisoryApp.pick_meal at h
    split_ifs at h with hb
    dsimp only at h
    rw [take_min_twenty] at h
    exact pysample_mem h
  · intro i hi
    unfold AdvisoryApp.pick_meal
    have hc : df.filter (mealTypeMatches mt) ≠ [] := by
      intro hnil
      have h0 : (AdvisoryApp.pick_meal_candidates df mt t g pref).length = 0 := by
        rw [happ_len, hnil]
        rfl
      omega
    rw [if_neg hc]
    dsimp only
    rw [take_min_twenty]
    exact pysample_get? (by rw [List.length_take]; omega)
  · intro choice
    unfold AdvisoryPage.pick_meal
    split_ifs with hb
    · simpa [List.filter_eq_nil_iff] using hb
    · dsimp only
      constructor
      · intro hn
        have h0 : (AdvisoryPage.pick_meal_candidates df mt t g pref).take 20 = [] :=
          (pysample_eq_none_iff _ _).mp hn
        have hc : AdvisoryPage.pick_meal_candidates df mt t g pref = [] := by
          rcases hx : (AdvisoryPage.pick_meal_candidates df mt t g pref) with _ | ⟨a, l⟩
          · rfl
          · rw [hx] at h0; simp at h0
        rw [hc] at hpage_len
        exact absurd (List.length_eq_zero.mp hpage_len.symm) hb
      · intro hall
        exact absurd (List.filter_eq_nil_iff.mpr (fun r hr => by simp [hall r hr])) hb
  · intro choice rec h
    unfold AdvisoryPage.pick_meal at h
    split_ifs at h with hb
    dsimp only at h
    exact pysample_mem h
  · intro i hi
    unfold AdvisoryPage.pick_meal
    have hc : df.filter (mealTypeMatches mt) ≠ [] := by
      intro hnil
      have h0 : (AdvisoryPage.pick_meal_candidates df mt t g pref).length = 0 := by
        rw [hpage_len, hnil]
        rfl
      omega
    rw [if_neg hc]
    dsimp only
    exact pysample_get? (by rw [List.length_take]; omega)

/-- Witness for C4: on a one-recipe dinner corpus, selection index 0 returns
that recipe, and it is among the top-20 candidates. -/
theorem pick_meal_spec_witness :
    ({ recipe_name := ("a".data), servings := 1, calories := 100,
       calories_per_serving := 100, protein_g := 30, fat_g := 1, carbs_g := 1,
       ingredients_list := [], ingredient_lines_per_serving := [],
       diet_labels := [], meal_type := ("dinner".data) } : RecipeRow)
      ∈ (AdvisoryApp.pick_meal_candidates
          [{ recipe_name := ("a".data), servings := 1, calories := 100,
             calories_per_serving := 100, protein_g := 30, fat_g := 1, carbs_g := 1,
             ingredients_list := [], ingredient_lines_per_serving := [],
             diet_labels := [], meal_type := ("dinner".data) }]
          ("dinner".data) 500 ("strength".data) none).take 20 :=
  (pick_meal_spec
      [{ recipe_name := ("a".data), servings := 1, calories := 100,
         calories_per_serving := 100, protein_g := 30, fat_g := 1, carbs_g := 1,
         ingredients_list := [], ingredient_lines_per_serving := [],
         diet_labels := [], meal_type := ("dinner".data) }]
      ("dinner".data) 500 ("strength".data) none).2.1 0 _
    (by with_unfolding_all decide)

/-! ### String lemmas for the quantity parser -/

theorem dropWhile_append_of_nil {p : α → Bool} {l₁ : List α} (l₂ : List α)
    (h : List.dropWhile p l₁ = []) :
    List.dropWhile p (l₁ ++ l₂) = List.dropWhile p l₂ := by
  induction l₁ with
  | nil => rfl
  | cons c t ih =>
    simp only [List.dropWhile_cons] at h
    simp only [List.cons_append, List.dropWhile_cons]
    split_ifs at h ⊢ with hc
    exact ih h

theorem dropWhile_append_of_ne_nil {p : α → Bool} {l₁ : List α} (l₂ : List α)
    (h : List.dropWhile p l₁ ≠ []) :
    List.dropWhile p (l₁ ++ l₂) = List.dropWhile p l₁ ++ l₂ := by
  induction l₁ with
  | nil => exact absurd rfl h
  | cons c t ih =>
    simp only [List.dropWhile_cons] at h
    simp only [List.cons_append, List.dropWhile_cons]
    split_ifs at h ⊢ with hc
    · exact ih h
    · rfl

theorem mem_of_mem_dropWhile {p : α → Bool} {l : List α} {x : α}
    (h : x ∈ List.dropWhile p l) : x ∈ l := by
  induction l with
  | nil => simpa using h
  | cons c t ih =>
    rw [List.dropWhile_cons] at h
    split_ifs at h with hc
    · exact List.mem_cons_of_mem c (ih h)
    · exact h

theorem pystripLeft_subset {l : List Char} {x : Char} (h : x ∈ pystripLeft l) : x ∈ l :=
  mem_of_mem_dropWhile h

theorem pystripRight_subset {l : List Char} {x : Char} (h : x ∈ pystripRight l) : x ∈ l := by
  unfold pystripRight at h
  rw [List.mem_reverse] at h
  simpa using List.mem_reverse.mp (List.mem_reverse.mpr (mem_of_mem_dropWhile h))

theorem pystripLeft_eq_nil_iff {l : List Char} :
    pystripLeft l = [] ↔ ∀ c ∈ l, isPySpace c := List.dropWhile_eq_nil_iff

theorem pystripRight_eq_nil_iff {l : List Char} :
    pystripRight l = [] ↔ ∀ c ∈ l, isPySpace c := by
  unfold pystripRight
  rw [List.reverse_eq_nil_iff, List.dropWhile_eq_nil_iff]
  constructor
  · intro h c hc
    exact h c (List.mem_reverse.mpr hc)
  · intro h c hc
    exact h c (List.mem_reverse.mp hc)

theorem pystrip_eq_nil_of_blank {l : List Char} (h : ∀ c ∈ l, isPySpace c) :
    pystrip l = [] := by
  unfold pystrip
  rw [pystripRight_eq_nil_iff.mpr h]
  rfl

theorem pystripRight_cons (c : Char) (t : List Char) :
    pystripRight (c :: t) =
      if pystripRight t = [] then (if isPySpace c then [] else [c])
      else c :: pystripRight t := by
  unfold pystripRight
  rw [show (c :: t).reverse = t.reverse ++ [c] by simp]
  by_cases h : List.dropWhile isPySpace t.reverse = []
  · rw [dropWhile_append_of_nil _ h, if_pos (by rw [h]; rfl)]
    by_cases hc : isPySpace c
    · simp [List.dropWhile_cons, hc]
    · simp [List.dropWhile_cons, hc]
  · rw [dropWhile_append_of_ne_nil _ h,
      if_neg (by simpa [List.reverse_eq_nil_iff] using h)]
    simp

theorem pystrip_pystripLeft (l : List Char) : pystrip (pystripLeft l) = pystrip l := by
  induction l with
  | nil => rfl
  | cons c t ih =>
    by_cases hc : isPySpace c
    · have h1 : pystripLeft (c :: t) = pystripLeft t := by
        simp [pystripLeft, List.dropWhile_cons, hc]
      rw [h1, ih]
      show pystrip t = pystrip (c :: t)
      unfold pystrip
      rw [pystripRight_cons c t]
      by_cases h2 : pystripRight t = []
      · rw [if_pos h2, if_pos hc, h2]
      · rw [if_neg h2]
        show pystripLeft (pystripRight t) = pystripLeft (c :: pystripRight t)
        simp [pystripLeft, List.dropWhile_cons, hc]
    · rw [show pystripLeft (c :: t) = c :: t from by
        simp [pystripLeft, List.dropWhile_cons, hc]]

theorem pystripRight_idem (l : List Char) :
    pystripRight (pystripRight l) = pystripRight l := by
  unfold pystripRight
  rw [List.reverse_reverse, List.dropWhile_idempotent]

theorem pystrip_pystripRight (l : List Char) : pystrip (pystripRight l) = pystrip l := by
  unfold pystrip
  rw [pystripRight_idem]

theorem pyFraction_pystripLeft (l : List Char) :
    pyFraction (pystripLeft l) = pyFraction l := by
  unfold pyFraction
  rw [pystrip_pystripLeft]

theorem pyFraction_pystripRight (l : List Char) :
    pyFraction (pystripRight l) = pyFraction l := by
  unfold pyFraction
  rw [pystrip_pystripRight]

/-- A `Fraction`-parseable string has a non-whitespace character. -/
theorem pyFraction_nonblank {l : List Char} {q : ℚ} (h : pyFraction l = some q) :
    ∃ c ∈ l, isPySpace c = false := by
  by_contra hall
  push_neg at hall
  have hblank : ∀ c ∈ l, isPySpace c := by
    intro c hc
    have := hall c hc
    simpa using this
  rw [show pyFraction l = none from by
    unfold pyFraction
    rw [pystrip_eq_nil_of_blank hblank]
    rfl] at h
  exact Option.noConfusion h

theorem pystripLeft_append_of_nonblank {l₁ : List Char} (l₂ : List Char)
    (h : ∃ c ∈ l₁, isPySpace c = false) :
    pystripLeft (l₁ ++ l₂) = pystripLeft l₁ ++ l₂ := by
  unfold pystripLeft
  apply dropWhile_append_of_ne_nil
  intro hnil
  obtain ⟨c, hc, hcs⟩ := h
  exact absurd (List.dropWhile_eq_nil_iff.mp hnil c hc) (by simp [hcs])

theorem pystripRight_append_of_nonblank (l₁ : List Char) {l₂ : List Char}
    (h : ∃ c ∈ l₂, isPySpace c = false) :
    pystripRight (l₁ ++ l₂) = l₁ ++ pystripRight l₂ := by
  have hne : List.dropWhile isPySpace l₂.reverse ≠ [] := by
    intro hnil
    obtain ⟨c, hc, hcs⟩ := h
    exact absurd (List.dropWhile_eq_nil_iff.mp hnil c (List.mem_reverse.mpr hc))
      (by simp [hcs])
  unfold pystripRight
  rw [List.reverse_append, dropWhile_append_of_ne_nil _ hne, List.reverse_append,
    List.reverse_reverse]

/-- Stripping a token of the shape `a-b` with non-blank halves strips each
half. -/
theorem pystrip_hyphen_split {a b : List Char}
    (ha : ∃ c ∈ a, isPySpace c = false) (hb : ∃ c ∈ b, isPySpace c = false) :
    pystrip (a ++ '-' :: b) = pystripLeft a ++ '-' :: pystripRight b := by
  unfold pystrip
  rw [show a ++ '-' :: b = (a ++ ['-']) ++ b by simp,
    pystripRight_append_of_nonblank _ hb]
  rw [show (a ++ ['-']) ++ pystripRight b = a ++ ('-' :: pystripRight b) by simp,
    pystripLeft_append_of_nonblank _ ha]

theorem splitOnChar_of_parts {sep : Char} {a b : List Char}
    (ha : sep ∉ a) (hb : sep ∉ b) :
    splitOnChar sep (a ++ sep :: b) = [a, b] := by
  induction a with
  | nil =>
    simp only [List.nil_append]
    rw [splitOnChar]
    have hsplit : splitOnChar sep b = [b] := by
      clear ha
      induction b with
      | nil => rfl
      | cons c t ih =>
        rw [splitOnChar, ih (fun h => hb (List.mem_cons_of_mem c h))]
        dsimp only
        rw [if_neg]
        intro h
        exact hb (h ▸ List.mem_cons_self c t)
    rw [hsplit]
    simp
  | cons c t ih =>
    rw [List.cons_append, splitOnChar, ih (fun h => ha (List.mem_cons_of_mem c h))]
    dsimp only
    rw [if_neg]
    intro h
    exact ha (h ▸ List.mem_cons_self c t)

theorem splitOnChar_ne_nil (sep : Char) (t : List Char) : splitOnChar sep t ≠ [] := by
  induction t with
  | nil => simp [splitOnChar]
  | cons c rest ih =>
    rw [splitOnChar]
    rcases hs : splitOnChar sep rest with _ | ⟨h1, t1⟩
    · exact absurd hs ih
    · dsimp only
      split_ifs <;> simp

theorem splitOnChar_one_inv {sep : Char} {t b : List Char}
    (h : splitOnChar sep t = [b]) : t = b ∧ sep ∉ b := by
  induction t generalizing b with
  | nil =>
    rw [splitOnChar] at h
    injection h with h1 _
    exact ⟨h1, h1 ▸ List.not_mem_nil sep⟩
  | cons c rest ih =>
    rw [splitOnChar] at h
    rcases hs : splitOnChar sep rest with _ | ⟨h1, t1⟩
    · exact absurd hs (splitOnChar_ne_nil sep rest)
    · rw [hs] at h
      dsimp only at h
      by_cases hc : c = sep
      · rw [if_pos hc] at h
        exact absurd h (by simp)
      · rw [if_neg hc] at h
        injection h with hb ht
        obtain ⟨hr, hn⟩ := ih (by rw [hs, ht])
        subst hr
        refine ⟨by rw [hb], ?_⟩
        rw [← hb]
        intro hmem
        rcases List.mem_cons.mp hmem with heq | hmem2
        · exact hc heq.symm
        · exact hn hmem2

theorem splitOnChar_two_inv {sep : Char} {t a b : List Char}
    (h : splitOnChar sep t = [a, b]) :
    t = a ++ sep :: b ∧ sep ∉ a ∧ sep ∉ b := by
  induction t generalizing a with
  | nil =>
    rw [splitOnChar] at h
    exact absurd h (by simp)
  | cons c rest ih =>
    rw [splitOnChar] at h
    rcases hs : splitOnChar sep rest with _ | ⟨h1, t1⟩
    · exact absurd hs (splitOnChar_ne_nil sep rest)
    · rw [hs] at h
      dsimp only at h
      by_cases hc : c = sep
      · rw [if_pos hc] at h
        injection h with ha h2
        injection h2 with hb ht
        obtain ⟨hr, hn⟩ := splitOnChar_one_inv (by rw [hs, hb, ht])
        subst hc
        refine ⟨?_, ?_, hn⟩
        · rw [← ha, hr]
          rfl
        · rw [← ha]
          exact List.not_mem_nil _
      · rw [if_neg hc] at h
        injection h with ha ht
        obtain ⟨hr, hna, hnb⟩ := ih (by rw [hs, ht])
        refine ⟨by rw [← ha, hr]; rfl, ?_, hnb⟩
        rw [← ha]
        intro hmem
        rcases List.mem_cons.mp hmem with heq | hmem2
        · exact hc heq.symm
        · exact hna hmem2

theorem alookup_eq_none {table : List (List Char × List Char)} {t : List Char}
    (h : ∀ p ∈ table, t ≠ p.1) : alookup table t = none := by
  induction table with
  | nil => rfl
  | cons kv rest ih =>
    rw [alookup, if_neg (h kv (List.mem_cons_self _ _))]
    exact ih (fun p hp => h p (List.mem_cons_of_mem _ hp))

/-- No Unicode-fraction key contains a hyphen, so the substitution step
leaves any hyphen-carrying token unchanged. -/
theorem unicodeSub_of_hyphen {t : List Char} (h : ('-') ∈ t) : unicodeSub t = t := by
  have hk : ∀ p ∈ UNICODE_FRACTIONS, ('-') ∉ p.1 := by decide
  unfold unicodeSub
  rw [alookup_eq_none]
  · rfl
  · intro p hp heq
    exact (hk p hp) (heq ▸ h)

/-- Claim C6: on any token whose two hyphen-separated halves both parse as
exact rationals (in particular decimal or n/d form), the unnamed module's
`parse_quantity_token` returns the arithmetic mean of the halves. -/
theorem parse_quantity_token_range (token a b : List Char) (qa qb : ℚ)
    (hsplit : splitOnChar '-' token = [a, b])
    (hqa : pyFraction a = some qa) (hqb : pyFraction b = some qb) :
    AdvisoryApp.parse_quantity_token token = some ((qa + qb) / 2) := by
  obtain ⟨rfl, hna, hnb⟩ := splitOnChar_two_inv hsplit
  have hna' := pyFraction_nonblank hqa
  have hnb' := pyFraction_nonblank hqb
  have hstrip : pystrip (a ++ '-' :: b) = pystripLeft a ++ '-' :: pystripRight b :=
    pystrip_hyphen_split hna' hnb'
  have haL : pystripLeft a ≠ [] := by
    intro hnil
    obtain ⟨c, hc, hcs⟩ := hna'
    exact absurd (pystripLeft_eq_nil_iff.mp hnil c hc) (by simp [hcs])
  obtain ⟨c0, a0, ha0⟩ := List.exists_cons_of_ne_nil haL
  have hc0 : c0 ≠ '-' := by
    intro hc
    exact hna (pystripLeft_subset (ha0 ▸ hc ▸ List.mem_cons_self c0 a0))
  have hmem2 : ('-') ∈ (pystripLeft a ++ '-' :: pystripRight b) :=
    List.mem_append_right _ (List.mem_cons_self _ _)
  have hh2 : (pystripLeft a ++ '-' :: pystripRight b).head? ≠ some '-' := by
    rw [ha0]
    simp [hc0]
  have hra : pyFraction (pystripLeft a) = some qa := (pyFraction_pystripLeft a).trans hqa
  have hrb : pyFraction (pystripRight b) = some qb := (pyFraction_pystripRight b).trans hqb
  have hsplit2 : splitOnChar '-' (pystripLeft a ++ '-' :: pystripRight b)
      = [pystripLeft a, pystripRight b] :=
    splitOnChar_of_parts (fun hm => hna (pystripLeft_subset hm))
      (fun hm => hnb (pystripRight_subset hm))
  have hrm : rangeMean (pystripLeft a ++ '-' :: pystripRight b) = some ((qa + qb) / 2) := by
    unfold rangeMean
    rw [if_pos ⟨hmem2, hh2⟩, hsplit2]
    dsimp only
    rw [hra, hrb]
  have hsubst : unicodeSub (pystrip (a ++ '-' :: b)) = pystrip (a ++ '-' :: b) := by
    rw [hstrip]
    exact unicodeSub_of_hyphen hmem2
  unfold AdvisoryApp.parse_quantity_token
  dsimp only
  rw [hsubst, hstrip, hrm]

/-- Counterexample to C6 read over both duplicated implementations: the
nutrition_advisory.py copy has no hyphen-range branch, so it fails on the
spec's own example token "1-2" instead of returning the mean 3/2. -/
theorem parse_range_page_counterexample :
    AdvisoryPage.parse_quantity_token ("1-2".data) = none := by
  with_unfolding_all decide

/-- Witness for C6 at the spec's own example: "1-2" parses to 3/2. -/
theorem parse_quantity_token_range_witness :
    AdvisoryApp.parse_quantity_token ("1-2".data) = some ((1 + 2) / 2) :=
  parse_quantity_token_range ("1-2".data) ("1".data) ("2".data) 1 2
    (by with_unfolding_all decide) (by with_unfolding_all decide)
    (by with_unfolding_all decide)

/-! ### The duplicated parse_quantity_token implementations (C10) -/

/-- Counterexample to claim C10 as stated: the two duplicated
implementations disagree on the token "1-2" (the unnamed module's
hyphen-range branch returns 3/2, nutrition_advisory.py's plain `Fraction`
parse fails and yields no value). -/
theorem parse_quantity_token_duplicates_differ :
    AdvisoryApp.parse_quantity_token ("1-2".data)
      ≠ AdvisoryPage.parse_quantity_token ("1-2".data) := by
  with_unfolding_all decide

/-- Claim C10 as amended: the two implementations agree on every token on
which the unnamed module's hyphen-range branch yields no value (in
particular on every token without an interior hyphen); on a token where the
branch yields the mean, the unnamed module returns that mean while
nutrition_advisory.py returns the plain `Fraction` parse of the stripped,
substituted token (no value on such tokens, e.g. "1-2"). -/
theorem parse_quantity_token_duplicates_agree (token : List Char) :
    (rangeMean (unicodeSub (pystrip token)) = none →
      AdvisoryApp.parse_quantity_token token = AdvisoryPage.parse_quantity_token token) ∧
    (∀ q, rangeMean (unicodeSub (pystrip token)) = some q →
      AdvisoryApp.parse_quantity_token token = some q ∧
      AdvisoryPage.parse_quantity_token token
        = pyFraction (unicodeSub (pystrip token))) := by
  constructor
  · intro h
    unfold AdvisoryApp.parse_quantity_token AdvisoryPage.parse_quantity_token
    dsimp only
    rw [h]
  · intro q h
    constructor
    · unfold AdvisoryApp.parse_quantity_token
      dsimp only
      rw [h]
    · rfl

/-- Witness for the amended C10 on a hyphen-free token. -/
theorem parse_quantity_token_duplicates_agree_witness :
    AdvisoryApp.parse_quantity_token ("0.5".data)
      = AdvisoryPage.parse_quantity_token ("0.5".data) :=
  (parse_quantity_token_duplicates_agree ("0.5".data)).1 (by with_unfolding_all decide)

/-! ### Scaling ingredient lines (C7) -/

theorem map_id_of_forall {f : α → α} {l : List α} (h : ∀ x ∈ l, f x = x) :
    l.map f = l := by
  induction l with
  | nil => rfl
  | cons a t ih =>
    rw [List.map_cons, h a (List.mem_cons_self a t),
      ih (fun x hx => h x (List.mem_cons_of_mem _ hx))]

/-- Counterexample to claim C7 as stated: factor-1 scaling re-renders a
detected decimal quantity as a fraction, so the line "0.5 cup milk" (which
has a detected leading quantity) comes back changed, as "1/2 cup milk". -/
theorem scale_lines_factor_one_counterexample :
    AdvisoryApp.scale_ingredient_lines [("0.5 cup milk".data)] 1
      ≠ [("0.5 cup milk".data)] ∧
    AdvisoryApp.scale_ingredient_lines [("0.5 cup milk".data)] 1
      = [("1/2 cup milk".data)] := by
  constructor
  · with_unfolding_all decide
  · with_unfolding_all decide

/-- Claim C7 as amended, for both modules: (a) for every factor, every line
with no detected leading quantity passes through exactly unchanged; (b) at
factor 1, a line with a detected quantity is unchanged exactly when it is
already in the canonical rendered form `formatted-fraction remainder` of
its own parse — i.e. factor-1 scaling is the identity on canonically
rendered lines (the counterexample shows a decimal rendering breaks it). -/
theorem scale_lines_identity_cases :
    (∀ (lines : List (List Char)) (factor : ℚ),
        (∀ l ∈ lines, (AdvisoryApp.split_quantity_from_line l).1 = none) →
        AdvisoryApp.scale_ingredient_lines lines factor = lines) ∧
    (∀ lines : List (List Char),
        (∀ l ∈ lines, ∀ q rest,
            AdvisoryApp.split_quantity_from_line l = (some q, rest) →
            l = pystrip (float_to_fraction_str q ++ ' ' :: rest)) →
        AdvisoryApp.scale_ingredient_lines lines 1 = lines) ∧
    (∀ (lines : List (List Char)) (factor : ℚ),
        (∀ l ∈ lines, (AdvisoryPage.split_quantity_from_line l).1 = none) →
        AdvisoryPage.scale_ingredient_lines lines factor = lines) ∧
    (∀ lines : List (List Char),
        (∀ l ∈ lines, ∀ q rest,
            AdvisoryPage.split_quantity_from_line l = (some q, rest) →
            l = pystrip (float_to_fraction_str q ++ ' ' :: rest)) →
        AdvisoryPage.scale_ingredient_lines lines 1 = lines) := by
  refine ⟨?_, ?_, ?_, ?_⟩
  · intro lines factor h
    apply map_id_of_forall
    intro x hx
    rcases hs : AdvisoryApp.split_quantity_from_line x with ⟨o, r⟩
    have : o = none := by
      have := h x hx
      rw [hs] at this
      exact this
    subst this
    rfl
  · intro lines h
    apply map_id_of_forall
    intro x hx
    rcases hs : AdvisoryApp.split_quantity_from_line x with ⟨o, r⟩
    rcases o with _ | q
    · rfl
    · show pystrip (float_to_fraction_str (q * 1) ++ ' ' :: r) = x
      rw [mul_one]
      exact (h x hx q r hs).symm
  · intro lines factor h
    apply map_id_of_forall
    intro x hx
    rcases hs : AdvisoryPage.split_quantity_from_line x with ⟨o, r⟩
    have : o = none := by
      have := h x hx
      rw [hs] at this
      exact this
    subst this
    rfl
  · intro lines h
    apply map_id_of_forall
    intro x hx
    rcases hs : AdvisoryPage.split_quantity_from_line x with ⟨o, r⟩
    rcases o with _ | q
    · rfl
    · show pystrip (float_to_fraction_str (q * 1) ++ ' ' :: r) = x
      rw [mul_one]
      exact (h x hx q r hs).symm

/-- Witness for the amended C7: a quantity-free line under factor 3 and a
canonically rendered line under factor 1 both come back unchanged. -/
theorem scale_lines_identity_cases_witness :
    AdvisoryApp.scale_ingredient_lines [("salt to taste".data)] 3
      = [("salt to taste".data)] ∧
    AdvisoryApp.scale_ingredient_lines [("1/2 cup milk".data)] 1
      = [("1/2 cup milk".data)] := by
  constructor
  · exact scale_lines_identity_cases.1 _ 3 (by with_unfolding_all decide)
  · apply scale_lines_identity_cases.2.1
    intro l hl q rest hsp
    simp only [List.mem_singleton] at hl
    subst hl
    rw [show AdvisoryApp.split_quantity_from_line ("1/2 cup milk".data)
        = (some (1/2), ("cup milk".data)) from by with_unfolding_all decide] at hsp
    injection hsp with h1 h2
    injection h1 with h1'
    subst h1'
    subst h2
    with_unfolding_all decide

/-! ### Digit rendering and parsing lemmas (towards C8) -/

theorem digitChar_isDigit {d : ℕ} (h : d < 10) : (digitChar d).isDigit = true := by
  interval_cases d <;> decide

theorem digitVal_digitChar {d : ℕ} (h : d < 10) : digitVal (digitChar d) = d := by
  interval_cases d <;> decide

theorem isDigit_not_space {c : Char} (h : c.isDigit = true) : isPySpace c = false := by
  by_contra hsp
  rw [Bool.not_eq_false] at hsp
  simp only [isPySpace, Bool.or_eq_true, decide_eq_true_eq] at hsp
  rcases hsp with ((((rfl | rfl) | rfl) | rfl) | rfl) | rfl <;> exact absurd h (by decide)

theorem isDigit_ne_hyphen {c : Char} (h : c.isDigit = true) : c ≠ '-' := by
  intro he
  rw [he] at h
  exact absurd h (by decide)

theorem isDigit_ne_plus {c : Char} (h : c.isDigit = true) : c ≠ '+' := by
  intro he
  rw [he] at h
  exact absurd h (by decide)

theorem natRepr_all_digit (n : ℕ) : ∀ c ∈ natRepr n, c.isDigit = true := by
  induction n using Nat.strong_induction_on with
  | _ n ih =>
    rw [natRepr]
    split_ifs with h
    · intro c hc
      rw [List.mem_singleton] at hc
      subst hc
      exact digitChar_isDigit h
    · intro c hc
      rcases List.mem_append.mp hc with hc1 | hc2
      · exact ih (n / 10) (Nat.div_lt_self (by omega) (by norm_num)) c hc1
      · rw [List.mem_singleton] at hc2
        subst hc2
        exact digitChar_isDigit (Nat.mod_lt n (by norm_num))

theorem natRepr_ne_nil (n : ℕ) : natRepr n ≠ [] := by
  rw [natRepr]
  split_ifs <;> simp

theorem natRepr_head (n : ℕ) : ∃ c cs, natRepr n = c :: cs ∧ c.isDigit = true := by
  obtain ⟨c, cs, hcons⟩ := List.exists_cons_of_ne_nil (natRepr_ne_nil n)
  exact ⟨c, cs, hcons, natRepr_all_digit n c (hcons ▸ List.mem_cons_self c cs)⟩

theorem natOfDigits_append (l : List Char) (c : Char) :
    natOfDigits (l ++ [c]) = 10 * natOfDigits l + digitVal c := by
  simp [natOfDigits, List.foldl_append]

theorem natOfDigits_natRepr (n : ℕ) : natOfDigits (natRepr n) = n := by
  induction n using Nat.strong_induction_on with
  | _ n ih =>
    rw [natRepr]
    split_ifs with h
    · show 10 * 0 + digitVal (digitChar n) = n
      rw [digitVal_digitChar h]
      omega
    · rw [natOfDigits_append, ih (n / 10) (Nat.div_lt_self (by omega) (by norm_num)),
        digitVal_digitChar (Nat.mod_lt n (by norm_num))]
      omega

theorem takeWhile_all {p : α → Bool} {l : List α} (h : ∀ c ∈ l, p c = true) :
    l.takeWhile p = l := by
  induction l with
  | nil => rfl
  | cons c t ih =>
    rw [List.takeWhile_cons, if_pos (h c (List.mem_cons_self c t))]
    rw [ih (fun x hx => h x (List.mem_cons_of_mem c hx))]

theorem takeWhile_all_append {p : α → Bool} {l₁ : List α} (l₂ : List α)
    (h : ∀ c ∈ l₁, p c = true) :
    (l₁ ++ l₂).takeWhile p = l₁ ++ l₂.takeWhile p := by
  induction l₁ with
  | nil => rfl
  | cons c t ih =>
    rw [List.cons_append, List.takeWhile_cons, if_pos (h c (List.mem_cons_self c t))]
    rw [ih (fun x hx => h x (List.mem_cons_of_mem c hx))]
    rfl

theorem dropWhile_eq_self_of_false {p : α → Bool} {l : List α}
    (h : ∀ c ∈ l, p c = false) : l.dropWhile p = l := by
  cases l with
  | nil => rfl
  | cons c t =>
    rw [List.dropWhile_cons, if_neg (by simp [h c (List.mem_cons_self c t)])]

theorem pystrip_of_no_space {l : List Char} (h : ∀ c ∈ l, isPySpace c = false) :
    pystrip l = l := by
  unfold pystrip pystripLeft pystripRight
  rw [dropWhile_eq_self_of_false (fun c hc => h c (List.mem_reverse.mp hc)),
    List.reverse_reverse, dropWhile_eq_self_of_false h]

theorem natRepr_no_space (n : ℕ) : ∀ c ∈ natRepr n, isPySpace c = false :=
  fun c hc => isDigit_not_space (natRepr_all_digit n c hc)

/-- `parseUnsigned` on a pure digit string yields the digits' value. -/
theorem parseUnsigned_digits (sgn : ℚ) (n : ℕ) :
    parseUnsigned sgn (natRepr n) = some (sgn * (n : ℚ)) := by
  unfold parseUnsigned
  simp only [takeWhile_all (natRepr_all_digit n),
    List.dropWhile_eq_nil_iff.mpr (natRepr_all_digit n),
    List.dropWhile_nil, List.head?_nil,
    show ((none : Option Char) = some '/') = False from by simp, if_false]
  rw [if_neg (natRepr_ne_nil n), natOfDigits_natRepr, if_pos trivial]

/-- `parseUnsigned` on `digits/digits` yields the quotient. -/
theorem parseUnsigned_digits_slash (sgn : ℚ) (n d : ℕ) (hd : d ≠ 0) :
    parseUnsigned sgn (natRepr n ++ '/' :: natRepr d) = some (sgn * (n : ℚ) / (d : ℚ)) := by
  unfold parseUnsigned
  simp only [takeWhile_all_append _ (natRepr_all_digit n),
    dropWhile_append_of_nil _ (List.dropWhile_eq_nil_iff.mpr (natRepr_all_digit n)),
    List.takeWhile_cons, List.dropWhile_cons, List.head?_cons, List.tail_cons,
    show ('/').isDigit = false from rfl, show isPySpace '/' = false from rfl,
    Bool.false_eq_true, if_false, List.append_nil]
  rw [if_pos trivial, if_neg (natRepr_ne_nil n),
    dropWhile_eq_self_of_false (natRepr_no_space d),
    takeWhile_all (natRepr_all_digit d),
    List.dropWhile_eq_nil_iff.mpr (natRepr_all_digit d)]
  rw [if_neg (by simp [natRepr_ne_nil d]), natOfDigits_natRepr, natOfDigits_natRepr,
    if_neg hd]


/-! ### Round-trip of float_to_fraction_str through parse_quantity_token (towards C8) -/

theorem intRepr_no_space (i : ℤ) : ∀ c ∈ intRepr i, isPySpace c = false := by
  unfold intRepr
  split_ifs with h
  · intro c hc
    rcases List.mem_cons.mp hc with rfl | hc2
    · decide
    · exact natRepr_no_space _ c hc2
  · exact natRepr_no_space _

theorem pyFraction_intRepr (i : ℤ) : pyFraction (intRepr i) = some (i : ℚ) := by
  unfold pyFraction
  rw [pystrip_of_no_space (intRepr_no_space i)]
  unfold intRepr
  split_ifs with h
  · dsimp only
    rw [if_neg (by decide), if_pos rfl, parseUnsigned_digits]
    congr 1
    have h1 : (i.natAbs : ℤ) = -i := by omega
    have h2 : (i.natAbs : ℚ) = -(i : ℚ) := by
      rw [(Int.cast_natCast i.natAbs).symm, h1]
      push_cast; ring
    rw [h2]; ring
  · obtain ⟨c, cs, hcons, hcd⟩ := natRepr_head i.natAbs
    rw [hcons]
    dsimp only
    rw [if_neg (isDigit_ne_plus hcd), if_neg (isDigit_ne_hyphen hcd), ← hcons,
      parseUnsigned_digits]
    congr 1
    have h1 : (i.natAbs : ℤ) = i := by omega
    have h2 : (i.natAbs : ℚ) = (i : ℚ) := by
      rw [(Int.cast_natCast i.natAbs).symm, h1]
    rw [h2]; ring

theorem pyFraction_intRepr_slash (a : ℤ) (d : ℕ) (hd : d ≠ 0) :
    pyFraction (intRepr a ++ '/' :: natRepr d) = some ((a : ℚ) / (d : ℚ)) := by
  have hns : ∀ c ∈ intRepr a ++ '/' :: natRepr d, isPySpace c = false := by
    intro c hc
    rcases List.mem_append.mp hc with h1 | h2
    · exact intRepr_no_space a c h1
    · rcases List.mem_cons.mp h2 with rfl | h3
      · decide
      · exact natRepr_no_space d c h3
  unfold pyFraction
  rw [pystrip_of_no_space hns]
  unfold intRepr
  split_ifs with h
  · rw [List.cons_append]
    dsimp only
    rw [if_neg (by decide), if_pos rfl, parseUnsigned_digits_slash _ _ _ hd]
    congr 1
    have h1 : (a.natAbs : ℤ) = -a := by omega
    have h2 : (a.natAbs : ℚ) = -(a : ℚ) := by
      rw [(Int.cast_natCast a.natAbs).symm, h1]
      push_cast; ring
    rw [h2]; ring
  · obtain ⟨c, cs, hcons, hcd⟩ := natRepr_head a.natAbs
    rw [hcons, List.cons_append]
    dsimp only
    rw [if_neg (isDigit_ne_plus hcd), if_neg (isDigit_ne_hyphen hcd), ← List.cons_append,
      ← hcons, parseUnsigned_digits_slash _ _ _ hd]
    congr 1
    have h1 : (a.natAbs : ℤ) = a := by omega
    have h2 : (a.natAbs : ℚ) = (a : ℚ) := by
      rw [(Int.cast_natCast a.natAbs).symm, h1]
    rw [h2]; ring

theorem pyFraction_float_str (x : ℚ) :
    pyFraction (float_to_fraction_str x) = some (limit_denominator x 16) := by
  unfold float_to_fraction_str
  dsimp only
  split_ifs with h
  · rw [pyFraction_intRepr]
    congr 1
    conv_rhs => rw [← Rat.num_div_den (limit_denominator x 16)]
    rw [h]
    norm_num
  · rw [pyFraction_intRepr_slash _ _ (Rat.den_pos _).ne']
    congr 1
    exact_mod_cast Rat.num_div_den (limit_denominator x 16)

theorem float_str_head (x : ℚ) :
    ∃ c cs, float_to_fraction_str x = c :: cs ∧ (c.isDigit = true ∨ c = '-') := by
  unfold float_to_fraction_str
  dsimp only
  split_ifs with h
  · unfold intRepr
    split_ifs with h2
    · exact ⟨'-', _, rfl, Or.inr rfl⟩
    · obtain ⟨c, cs, hcons, hcd⟩ := natRepr_head _
      exact ⟨c, cs, hcons, Or.inl hcd⟩
  · unfold intRepr
    split_ifs with h2
    · exact ⟨'-', _, by rw [List.cons_append], Or.inr rfl⟩
    · obtain ⟨c, cs, hcons, hcd⟩ := natRepr_head (limit_denominator x 16).num.natAbs
      exact ⟨c, cs ++ '/' :: natRepr (limit_denominator x 16).den,
        by rw [hcons, List.cons_append], Or.inl hcd⟩

theorem float_str_no_space (x : ℚ) : ∀ c ∈ float_to_fraction_str x, isPySpace c = false := by
  unfold float_to_fraction_str
  dsimp only
  split_ifs with h
  · exact intRepr_no_space _
  · intro c hc
    rcases List.mem_append.mp hc with h1 | h2
    · exact intRepr_no_space _ c h1
    · rcases List.mem_cons.mp h2 with rfl | h3
      · decide
      · exact natRepr_no_space _ c h3

theorem float_str_hyphen_head (x : ℚ) (hm : ('-') ∈ float_to_fraction_str x) :
    (float_to_fraction_str x).head? = some '-' := by
  unfold float_to_fraction_str at hm ⊢
  dsimp only at hm ⊢
  split_ifs at hm ⊢ with h
  · unfold intRepr at hm ⊢
    split_ifs at hm ⊢ with h2
    · rfl
    · exact absurd (natRepr_all_digit _ _ hm) (by decide)
  · unfold intRepr at hm ⊢
    split_ifs at hm ⊢ with h2
    · rw [List.cons_append]
      rfl
    · exfalso
      rcases List.mem_append.mp hm with h1 | h3
      · exact absurd (natRepr_all_digit _ _ h1) (by decide)
      · rcases List.mem_cons.mp h3 with he | h4
        · exact absurd he (by decide)
        · exact absurd (natRepr_all_digit _ _ h4) (by decide)

theorem unicodeSub_float_str (x : ℚ) :
    unicodeSub (float_to_fraction_str x) = float_to_fraction_str x := by
  have hnone : alookup UNICODE_FRACTIONS (float_to_fraction_str x) = none := by
    apply alookup_eq_none
    intro p hp he
    obtain ⟨c, cs, hcons, hcd⟩ := float_str_head x
    have hk : ∀ q ∈ UNICODE_FRACTIONS,
        (match q.1 with
         | [] => false
         | c :: _ => (!c.isDigit) && (c != '-')) = true := by decide
    have h2 := hk p hp
    rw [← he, hcons] at h2
    simp only [Bool.and_eq_true, Bool.not_eq_true', bne_iff_ne] at h2
    rcases hcd with hdig | rfl
    · rw [h2.1] at hdig
      exact Bool.false_ne_true hdig
    · exact h2.2 rfl
  unfold unicodeSub
  rw [hnone]
  rfl

theorem rangeMean_float_str (x : ℚ) : rangeMean (float_to_fraction_str x) = none := by
  have hcond : ¬(('-') ∈ float_to_fraction_str x ∧
      (float_to_fraction_str x).head? ≠ some '-') := by
    rintro ⟨h1, h2⟩
    exact h2 (float_str_hyphen_head x h1)
  unfold rangeMean
  rw [if_neg hcond]

theorem parse_float_str_app (x : ℚ) :
    AdvisoryApp.parse_quantity_token (float_to_fraction_str x) =
      pyFraction (float_to_fraction_str x) := by
  unfold AdvisoryApp.parse_quantity_token
  dsimp only
  rw [pystrip_of_no_space (float_str_no_space x), unicodeSub_float_str, rangeMean_float_str]

theorem parse_float_str_page (x : ℚ) :
    AdvisoryPage.parse_quantity_token (float_to_fraction_str x) =
      pyFraction (float_to_fraction_str x) := by
  unfold AdvisoryPage.parse_quantity_token
  rw [pystrip_of_no_space (float_str_no_space x), unicodeSub_float_str]

theorem limitDenLoop_post (M N D : ℤ) (hcop : Int.gcd N D = 1) (hMD : M < D) :
    ∀ d : ℕ, ∀ p0 q0 p1 q1 n : ℤ, LDInv M N D p0 q0 p1 q1 n d →
      ∀ P0 Q0 P1 Q1 : ℤ, limitDenLoop M p0 q0 p1 q1 n d = (P0, Q0, P1, Q1) →
        ∃ n' : ℤ, ∃ d' : ℕ, LDInv M N D P0 Q0 P1 Q1 n' d' ∧
          M < Q0 + n' / (d' : ℤ) * Q1 := by
  intro d
  induction d using Nat.strong_induction_on with
  | _ d ih =>
    intro p0 q0 p1 q1 n hinv P0 Q0 P1 Q1 hres
    obtain ⟨hA, hB, hdet, hq00, hq01, hq11, hq1M, hd1, hdn⟩ := hinv
    have hd0 : d ≠ 0 := by omega
    rw [limitDenLoop, dif_neg hd0] at hres
    by_cases hq2 : M < q0 + n / (d : ℤ) * q1
    · rw [if_pos hq2] at hres
      injection hres with e1 hres
      injection hres with e2 hres
      injection hres with e3 e4
      subst e1; subst e2; subst e3; subst e4
      exact ⟨n, d, ⟨hA, hB, hdet, hq00, hq01, hq11, hq1M, hd1, hdn⟩, hq2⟩
    · rw [if_neg hq2] at hres
      push_neg at hq2
      have hdz : (0 : ℤ) < (d : ℤ) := by omega
      have hmod := Int.ediv_add_emod n (d : ℤ)
      have hr0 : 0 ≤ n % (d : ℤ) := Int.emod_nonneg n (by omega)
      have hrd : n % (d : ℤ) < (d : ℤ) := Int.emod_lt_of_pos n hdz
      have hcast : (((n % (d : ℤ)).toNat : ℕ) : ℤ) = n % (d : ℤ) := Int.toNat_of_nonneg hr0
      have ha1 : 1 ≤ n / (d : ℤ) := by
        by_contra hcon
        push_neg at hcon
        have h1 : n / (d : ℤ) ≤ 0 := by omega
        nlinarith [hmod, hrd, hdn]
      -- the remainder stays positive: otherwise d divides both N and D
      have hr1 : 1 ≤ n % (d : ℤ) := by
        by_contra hcon
        push_neg at hcon
        have hz : n % (d : ℤ) = 0 := by omega
        have hn : n = (d : ℤ) * (n / (d : ℤ)) := by linarith [hmod]
        have hdvN : (d : ℤ) ∣ N := ⟨p1 * (n / (d : ℤ)) + p0, by linear_combination -hA + p1 * hn⟩
        have hdvD : (d : ℤ) ∣ D := ⟨q1 * (n / (d : ℤ)) + q0, by linear_combination -hB + q1 * hn⟩
        have hdN : d ∣ N.natAbs := by
          have := Int.natAbs_dvd_natAbs.mpr hdvN
          simpa using this
        have hdD : d ∣ D.natAbs := by
          have := Int.natAbs_dvd_natAbs.mpr hdvD
          simpa using this
        have hd1' : d = 1 := Nat.dvd_one.mp (hcop ▸ Nat.dvd_gcd hdN hdD)
        subst hd1'
        have ha : n / ((1 : ℕ) : ℤ) = n := by norm_num
        rw [ha] at hq2
        have hB1 : q1 * n + q0 = D := by
          have : ((1 : ℕ) : ℤ) = 1 := by norm_num
          linarith [hB, this ▸ hB]
        nlinarith [hq2, hMD, hB1]
      have hinv' : LDInv M N D p1 q1 (p0 + n / (d : ℤ) * p1) (q0 + n / (d : ℤ) * q1)
          (d : ℤ) ((n % (d : ℤ)).toNat) := by
        refine ⟨?_, ?_, ?_, by linarith, ?_, by nlinarith, hq2, ?_, ?_⟩
        · rw [hcast]
          linear_combination hA + p1 * hmod
        · rw [hcast]
          linear_combination hB + q1 * hmod
        · rcases hdet with hdt | hdt
          · right; linear_combination -hdt
          · left; linear_combination -hdt
        · nlinarith
        · rw [hcast]; exact hr1
        · rw [hcast]; exact hrd
      have hlt : (n % (d : ℤ)).toNat < d := by omega
      exact ih _ hlt _ _ _ _ _ hinv' _ _ _ _ hres

theorem limitDen_break_bound (x : ℚ) (M : ℤ) (hM : 1 ≤ M)
    (p0 q0 p1 q1 n' : ℤ) (d' : ℕ)
    (hinv : LDInv M x.num (x.den : ℤ) p0 q0 p1 q1 n' d')
    (hbreak : M < q0 + n' / (d' : ℤ) * q1)
    (b1 b2 : ℚ)
    (hb1 : b1 = ((p0 + (M - q0) / q1 * p1 : ℤ) : ℚ) / ((q0 + (M - q0) / q1 * q1 : ℤ) : ℚ))
    (hb2 : b2 = (p1 : ℚ) / (q1 : ℚ)) :
    |(if |b2 - x| ≤ |b1 - x| then b2 else b1) - x| ≤ 1 / (2 * (M : ℚ)) := by
  obtain ⟨hA, hB, hdet, hq00, hq01, hq11, hq1M, hd1, hdn⟩ := hinv
  have hq10 : (0 : ℤ) < q1 := by linarith
  have hd0 : (0 : ℤ) < (d' : ℤ) := by linarith
  -- integer facts about k = (M - q0) / q1 and a = n' / d'
  have hkdiv := Int.ediv_add_emod (M - q0) q1
  have hkr0 : 0 ≤ (M - q0) % q1 := Int.emod_nonneg _ (by omega)
  have hkr1 : (M - q0) % q1 < q1 := Int.emod_lt_of_pos _ hq10
  have hklow : q1 * ((M - q0) / q1) ≤ M - q0 := by linarith
  have hkhigh : M - q0 < q1 * ((M - q0) / q1) + q1 := by linarith
  have hadiv := Int.ediv_add_emod n' (d' : ℤ)
  have har0 : 0 ≤ n' % (d' : ℤ) := Int.emod_nonneg _ (by omega)
  have hard : n' % (d' : ℤ) < (d' : ℤ) := Int.emod_lt_of_pos _ hd0
  have hka : (M - q0) / q1 < n' / (d' : ℤ) := by
    have h1 : q1 * ((M - q0) / q1) < n' / (d' : ℤ) * q1 := by linarith
    nlinarith [h1, hq10]
  have hmN : (d' : ℤ) ≤ n' - (M - q0) / q1 * (d' : ℤ) := by
    have h1 : (M - q0) / q1 * (d' : ℤ) ≤ (n' / (d' : ℤ) - 1) * (d' : ℤ) :=
      mul_le_mul_of_nonneg_right (by omega) (le_of_lt hd0)
    nlinarith [hadiv, har0, h1]
  have hQlow : M + 1 - q1 ≤ q0 + (M - q0) / q1 * q1 := by linarith
  have hQhigh : q0 + (M - q0) / q1 * q1 ≤ M := by linarith
  have hQ1 : 1 ≤ q0 + (M - q0) / q1 * q1 := by linarith
  have hq1Q : M ≤ q1 * (q0 + (M - q0) / q1 * q1) := by
    nlinarith [mul_le_mul_of_nonneg_left hQlow (by linarith : (0 : ℤ) ≤ q1),
      mul_nonneg (by linarith : (0 : ℤ) ≤ q1 - 1) (by linarith : (0 : ℤ) ≤ M - q1)]
  have key2 : p1 * (x.den : ℤ) - q1 * x.num = (p1 * q0 - p0 * q1) * (d' : ℤ) := by
    linear_combination q1 * hA - p1 * hB
  have key1 : (p0 + (M - q0) / q1 * p1) * (x.den : ℤ) - (q0 + (M - q0) / q1 * q1) * x.num =
      (p1 * q0 - p0 * q1) * ((M - q0) / q1 * (d' : ℤ) - n') := by
    linear_combination (q0 + (M - q0) / q1 * q1) * hA - (p0 + (M - q0) / q1 * p1) * hB
  have sumId : (d' : ℤ) * (q0 + (M - q0) / q1 * q1) +
      (n' - (M - q0) / q1 * (d' : ℤ)) * q1 = (x.den : ℤ) := by
    linear_combination hB
  -- rational-level versions
  set NN := x.num with hNN
  set DD := x.den with hDD
  have hDq : (0 : ℚ) < ((DD : ℕ) : ℚ) := by rw [hDD]; exact_mod_cast x.pos
  have hq1q : (0 : ℚ) < ((q1 : ℤ) : ℚ) := by exact_mod_cast hq10
  have hQq : (0 : ℚ) < ((q0 + (M - q0) / q1 * q1 : ℤ) : ℚ) := by
    exact_mod_cast (by linarith : (0 : ℤ) < q0 + (M - q0) / q1 * q1)
  have hMq : (0 : ℚ) < (M : ℚ) := by exact_mod_cast (by linarith : (0 : ℤ) < M)
  have hdq : (0 : ℚ) < ((d' : ℕ) : ℚ) := by exact_mod_cast (by omega : 0 < d')
  have hxeq : x = ((NN : ℤ) : ℚ) / ((DD : ℕ) : ℚ) := by
    rw [hNN, hDD]
    exact_mod_cast (Rat.num_div_den x).symm
  -- difference formulas
  have hb2x : b2 - x = (((p1 * q0 - p0 * q1) * (d' : ℤ) : ℤ) : ℚ) /
      (((q1 : ℤ) : ℚ) * ((DD : ℕ) : ℚ)) := by
    rw [hb2, hxeq, div_sub_div _ _ (ne_of_gt hq1q) (ne_of_gt hDq)]
    congr 1
    exact_mod_cast key2
  have hb1x : b1 - x = (((p1 * q0 - p0 * q1) * ((M - q0) / q1 * (d' : ℤ) - n') : ℤ) : ℚ) /
      (((q0 + (M - q0) / q1 * q1 : ℤ) : ℚ) * ((DD : ℕ) : ℚ)) := by
    rw [hb1, hxeq, div_sub_div _ _ (ne_of_gt hQq) (ne_of_gt hDq)]
    congr 1
    exact_mod_cast key1
  have habs2 : |b2 - x| = (((d' : ℕ) : ℚ)) / (((q1 : ℤ) : ℚ) * ((DD : ℕ) : ℚ)) := by
    rw [hb2x, abs_div, abs_of_pos (mul_pos hq1q hDq)]
    congr 1
    have h1 : ((p1 * q0 - p0 * q1) * ((d' : ℕ) : ℤ)).natAbs = d' := by
      rcases hdet with hdt | hdt <;> rw [hdt] <;> simp
    rw [← Int.cast_abs, Int.abs_eq_natAbs, h1]
    push_cast
    ring
  have hposZ : (0 : ℤ) ≤ n' - (M - q0) / q1 * (d' : ℤ) := by linarith
  have habs1 : |b1 - x| = (((n' - (M - q0) / q1 * (d' : ℤ) : ℤ) : ℚ)) /
      (((q0 + (M - q0) / q1 * q1 : ℤ) : ℚ) * ((DD : ℕ) : ℚ)) := by
    rw [hb1x, abs_div, abs_of_pos (mul_pos hQq hDq)]
    congr 1
    have h1 : ((p1 * q0 - p0 * q1) * ((M - q0) / q1 * (d' : ℤ) - n')).natAbs =
        (n' - (M - q0) / q1 * (d' : ℤ)).natAbs := by
      rcases hdet with hdt | hdt <;> rw [hdt]
      · rw [one_mul, ← Int.natAbs_neg]
        congr 1
        ring
      · rw [neg_one_mul]
        congr 1
        ring
    have h2 : |(p1 * q0 - p0 * q1) * ((M - q0) / q1 * (d' : ℤ) - n')| =
        n' - (M - q0) / q1 * (d' : ℤ) := by
      rw [Int.abs_eq_natAbs, h1, ← Int.abs_eq_natAbs]
      exact abs_of_nonneg hposZ
    rw [← Int.cast_abs, h2]
  have hsum : |b2 - x| + |b1 - x| =
      1 / (((q1 : ℤ) : ℚ) * ((q0 + (M - q0) / q1 * q1 : ℤ) : ℚ)) := by
    rw [habs1, habs2, div_add_div _ _ (ne_of_gt (mul_pos hq1q hDq))
      (ne_of_gt (mul_pos hQq hDq)), div_eq_div_iff (by positivity) (by positivity)]
    have sumIdq : (((d' : ℕ) : ℤ) : ℚ) * ((q0 + (M - q0) / q1 * q1 : ℤ) : ℚ) +
        (((n' - (M - q0) / q1 * (d' : ℤ) : ℤ) : ℚ)) * ((q1 : ℤ) : ℚ) = ((DD : ℕ) : ℚ) := by
      exact_mod_cast sumId
    push_cast at sumIdq ⊢
    linear_combination (((q1 : ℤ) : ℚ) * (((q0 : ℤ) : ℚ) +
      (((M - q0) / q1 : ℤ) : ℚ) * ((q1 : ℤ) : ℚ)) * ((DD : ℕ) : ℚ)) * sumIdq
  have hfrac : 1 / (((q1 : ℤ) : ℚ) * ((q0 + (M - q0) / q1 * q1 : ℤ) : ℚ)) ≤ 1 / (M : ℚ) := by
    apply one_div_le_one_div_of_le hMq
    calc (M : ℚ) ≤ ((q1 * (q0 + (M - q0) / q1 * q1) : ℤ) : ℚ) := by exact_mod_cast hq1Q
    _ = ((q1 : ℤ) : ℚ) * ((q0 + (M - q0) / q1 * q1 : ℤ) : ℚ) := by push_cast; ring
  have hhalf : 1 / (2 * (M : ℚ)) = (1 / (M : ℚ)) / 2 := by ring
  have hnn2 : 0 ≤ |b2 - x| := abs_nonneg _
  have hnn1 : 0 ≤ |b1 - x| := abs_nonneg _
  split_ifs with hcmp
  · rw [hhalf]
    linarith
  · push_neg at hcmp
    rw [hhalf]
    linarith

theorem limit_denominator_close (x : ℚ) (hx : 0 ≤ x) (maxd : ℕ) (hmd : 1 ≤ maxd) :
    |limit_denominator x maxd - x| ≤ 1 / (2 * (maxd : ℚ)) := by
  unfold limit_denominator
  split_ifs with hden
  · simp only [sub_self, abs_zero]
    positivity
  · push_neg at hden
    have hDgt : (maxd : ℤ) < (x.den : ℤ) := by exact_mod_cast hden
    have hcop : Int.gcd x.num (x.den : ℤ) = 1 := by
      have := x.reduced
      simpa [Int.gcd] using this
    have hnum0 : 0 ≤ x.num := Rat.num_nonneg.mpr hx
    have hnum1 : 1 ≤ x.num := by
      have hne : x.num ≠ 0 := by
        intro h0
        have hx0 : x = 0 := by
          rwa [Rat.num_eq_zero] at h0
        rw [hx0] at hden
        norm_num at hden
        omega
      omega
    have hden0 : x.den ≠ 0 := x.den_nz
    have hMz : (1 : ℤ) ≤ (maxd : ℤ) := by exact_mod_cast hmd
    -- the remainder of the first division is nonzero (coprimality)
    have hr1 : 1 ≤ x.num % (x.den : ℤ) := by
      have hr0 : 0 ≤ x.num % (x.den : ℤ) := Int.emod_nonneg _ (by exact_mod_cast hden0)
      by_contra hcon
      push_neg at hcon
      have hz : x.num % (x.den : ℤ) = 0 := by omega
      have hmod := Int.ediv_add_emod x.num (x.den : ℤ)
      have hdvd : (x.den : ℤ) ∣ x.num := ⟨x.num / (x.den : ℤ), by linarith⟩
      have hdN : x.den ∣ x.num.natAbs := by
        have := Int.natAbs_dvd_natAbs.mpr hdvd
        simpa using this
      have hd1 : x.den = 1 := Nat.dvd_one.mp (by
        have := Nat.dvd_gcd hdN (dvd_refl x.den)
        rwa [Nat.Coprime.gcd_eq_one x.reduced] at this)
      omega
    have hrden : x.num % (x.den : ℤ) < (x.den : ℤ) :=
      Int.emod_lt_of_pos _ (by exact_mod_cast Nat.pos_of_ne_zero hden0)
    have hcast : (((x.num % (x.den : ℤ)).toNat : ℕ) : ℤ) = x.num % (x.den : ℤ) :=
      Int.toNat_of_nonneg (Int.emod_nonneg _ (by exact_mod_cast hden0))
    have hmod := Int.ediv_add_emod x.num (x.den : ℤ)
    -- unfold the first loop iteration
    have hstep : limitDenLoop (maxd : ℤ) 0 1 1 0 x.num x.den =
        limitDenLoop (maxd : ℤ) 1 0 (0 + x.num / (x.den : ℤ) * 1) (1 + x.num / (x.den : ℤ) * 0)
          (x.den : ℤ) ((x.num % (x.den : ℤ)).toNat) := by
      rw [limitDenLoop, dif_neg hden0, if_neg (by omega : ¬((maxd : ℤ) < 1 + x.num / (x.den : ℤ) * 0))]
    have hinv : LDInv (maxd : ℤ) x.num (x.den : ℤ) 1 0 (0 + x.num / (x.den : ℤ) * 1)
        (1 + x.num / (x.den : ℤ) * 0) (x.den : ℤ) ((x.num % (x.den : ℤ)).toNat) := by
      refine ⟨?_, ?_, ?_, le_refl 0, by omega, by omega, by omega, ?_, ?_⟩
      · rw [hcast]
        linear_combination hmod
      · rw [hcast]
        ring
      · right
        ring
      · rw [hcast]; exact hr1
      · rw [hcast]; exact hrden
    rcases hres : limitDenLoop (maxd : ℤ) 1 0 (0 + x.num / (x.den : ℤ) * 1)
        (1 + x.num / (x.den : ℤ) * 0) (x.den : ℤ) ((x.num % (x.den : ℤ)).toNat)
      with ⟨P0, Q0, P1, Q1⟩
    obtain ⟨n', d', hinv', hbreak⟩ :=
      limitDenLoop_post (maxd : ℤ) x.num (x.den : ℤ) hcop hDgt _ _ _ _ _ _ hinv
        P0 Q0 P1 Q1 hres
    rw [hstep, hres]
    have hfin := limitDen_break_bound x (maxd : ℤ) hMz P0 Q0 P1 Q1 n' d' hinv' hbreak
      (((P0 + ((maxd : ℤ) - Q0) / Q1 * P1 : ℤ) : ℚ) / ((Q0 + ((maxd : ℤ) - Q0) / Q1 * Q1 : ℤ) : ℚ))
      ((P1 : ℚ) / (Q1 : ℚ)) rfl rfl
    rw [show ((((maxd : ℕ) : ℤ)) : ℚ) = ((maxd : ℕ) : ℚ) from by push_cast; ring] at hfin
    exact hfin


/-- C8: for every quantity `x` in the recipe range 0-50, rendering `x` with
`float_to_fraction_str` (i.e. `Fraction(x).limit_denominator(16)` printed as
`n` or `n/d`) and parsing the string back with `parse_quantity_token` (either
module) succeeds and returns a value within `1/(2*16) = 1/32` of `x`. -/
theorem format_parse_roundtrip (x : ℚ) (h0 : 0 ≤ x) (h50 : x ≤ 50) :
    ∃ y : ℚ, AdvisoryApp.parse_quantity_token (float_to_fraction_str x) = some y ∧
      AdvisoryPage.parse_quantity_token (float_to_fraction_str x) = some y ∧
      |y - x| ≤ 1 / (2 * 16) := by
  refine ⟨limit_denominator x 16, ?_, ?_, ?_⟩
  · rw [parse_float_str_app, pyFraction_float_str]
  · rw [parse_float_str_page, pyFraction_float_str]
  · have h := limit_denominator_close x h0 16 (by norm_num)
    norm_num at h ⊢
    exact h

/-- Witness for `format_parse_roundtrip` at the concrete input x = 1/3. -/
theorem format_parse_roundtrip_witness :
    (0 : ℚ) ≤ 1/3 ∧ (1/3 : ℚ) ≤ 50 ∧
    (∃ y : ℚ, AdvisoryApp.parse_quantity_token (float_to_fraction_str (1/3)) = some y ∧
      AdvisoryPage.parse_quantity_token (float_to_fraction_str (1/3)) = some y ∧
      |y - 1/3| ≤ 1 / (2 * 16)) :=
  ⟨by norm_num, by norm_num, format_parse_roundtrip (1/3) (by norm_num) (by norm_num)⟩
